import Mathlib

/-!
Verification of the sensor-label normalization and port-disambiguation
pipeline of the south_farm_dashboard backend.

The embedding follows the source files `ag-research-backend/test2.py`
(port-driven mapper `fetch_fresh_data`, `_series_port`, `_reading_list`,
`_to_pct`, `_build_table_rows`, `get_soil_moistvals`) and
`ag-research-backend/app.py` (index-driven mapper `fetch_fresh_data_for`).
Only the pure normalization core is embedded; network fetch, disk caching
and HTTP routing are outside the core per the specification.

Modelling conventions:
* Python numbers (int/float) are modelled as rationals; the non-finite
  floats (nan/inf) get the dedicated constructor `PyVal.nan`, so that
  `isfinite` checks are faithful.  `round(x, n)` is modelled as exact
  decimal rounding with ties-to-even (Python's banker's rounding).
* Python dicts are modelled as association lists in insertion order;
  assignment `d[k] = v` replaces in place or appends (`dictSet`),
  `d.setdefault(k, []).extend(v)` is `dictSetdefaultExtend`.
* `try: ... except (TypeError, ValueError)` around coercions is modelled
  by the coercions returning `Option`.
* Regex searches are transliterated to explicit left-to-right scanners
  over the (ASCII-lowercased) character list, one per pattern.
-/

set_option autoImplicit false

namespace SouthFarm

/-- A Python/JSON value as it appears in the upstream payload: `None`,
a finite number (int or float, modelled exactly as a rational), a
non-finite float (nan or ±inf, not distinguished further), a string,
or a nested dict (string-keyed). -/
inductive PyVal where
  | null
  | num (q : ℚ)
  | nan
  | str (s : String)
  | dict (fields : List (String × PyVal))

/-- Result of a successful Python `float(...)` call: a finite value or a
non-finite one (nan/inf). -/
inductive PFloat where
  | fin (q : ℚ)
  | nanf
deriving DecidableEq

/-- Re-embed a float result as a value (used when `_reading_list` stores
the coerced float back into the reading). -/
def PFloat.toVal : PFloat → PyVal
  | .fin q => .num q
  | .nanf => .nan

-- ---------------------------------------------------------------------
-- Character/string utilities (ASCII, mirroring Python's str methods)
-- ---------------------------------------------------------------------

/-- Does `cs` start with `pre`? -/
def charsStartWith : List Char → List Char → Bool
  | _, [] => true
  | [], _ :: _ => false
  | c :: cs, d :: ds => c == d && charsStartWith cs ds

/-- Does `cs` contain `pat` as a contiguous substring?  Models Python's
`pat in cs`. -/
def charsHaveSub (pat : List Char) : List Char → Bool
  | [] => charsStartWith [] pat
  | c :: cs => charsStartWith (c :: cs) pat || charsHaveSub pat cs

/-- ASCII lowercase of a string's characters; models `str.lower()` for the
ASCII labels this system sees. -/
def lowerChars (s : String) : List Char := s.data.map Char.toLower

/-- `tok in label.lower()` for a lowercase ASCII token `tok`. -/
def lowerHas (label : String) (tok : String) : Bool :=
  charsHaveSub tok.data (lowerChars label)

/-- Python's `str.title()` for ASCII: the first letter of every run of
letters is uppercased, the following letters lowercased. -/
def pyTitle (s : String) : String :=
  ⟨(s.data.foldl
      (fun (st : Bool × List Char) c =>
        let c' := if c.isAlpha then (if st.1 then c.toLower else c.toUpper) else c
        (c.isAlpha, c' :: st.2))
      (false, [])).2.reverse⟩

-- ---------------------------------------------------------------------
-- Numeric coercions: Python float(...) and int(...)
-- ---------------------------------------------------------------------

/-- Digits of a char run, as a natural number; `none` if the run is empty. -/
def digitsToNat (cs : List Char) : ℕ :=
  cs.foldl (fun acc c => 10 * acc + (c.toNat - '0'.toNat)) 0

/-- Greedy `\d+`: split a leading digit run off `cs`; fails if there is
no leading digit. -/
def readDigits (cs : List Char) : Option (ℕ × List Char) :=
  let run := cs.takeWhile Char.isDigit
  if run.isEmpty then none else some (digitsToNat run, cs.drop run.length)

/-- Parse the exponent part `e±ddd` (already past the `e`/`E`). -/
def parseExpPart (cs : List Char) : Option ℤ :=
  match cs with
  | '+' :: rest =>
    match readDigits rest with
    | some (n, []) => some (n : ℤ)
    | _ => none
  | '-' :: rest =>
    match readDigits rest with
    | some (n, []) => some (-(n : ℤ))
    | _ => none
  | _ =>
    match readDigits cs with
    | some (n, []) => some (n : ℤ)
    | _ => none

/-- Scale a rational by a (possibly negative) power of ten. -/
def scalePow10 (q : ℚ) (e : ℤ) : ℚ :=
  if 0 ≤ e then q * (10 : ℚ) ^ e.toNat else q / (10 : ℚ) ^ (-e).toNat

/-- Parse the unsigned body of a float literal: digits, optional point and
fraction digits, optional exponent.  At least one digit must be present
(Python accepts `1.`, `.5`, `1e3`; rejects `.`, `e3`). -/
def parseFloatBody (cs : List Char) : Option ℚ :=
  let intRun := cs.takeWhile Char.isDigit
  let rest := cs.drop intRun.length
  let (fracRun, rest') :=
    match rest with
    | '.' :: r => (r.takeWhile Char.isDigit, r.drop (r.takeWhile Char.isDigit).length)
    | _ => ([], rest)
  if intRun.isEmpty ∧ fracRun.isEmpty then none
  else
    let mantissa : ℚ :=
      (digitsToNat intRun : ℚ) + (digitsToNat fracRun : ℚ) / (10 : ℚ) ^ fracRun.length
    match rest' with
    | [] => some mantissa
    | 'e' :: r => (parseExpPart r).map (scalePow10 mantissa)
    | 'E' :: r => (parseExpPart r).map (scalePow10 mantissa)
    | _ => none

/-- Python `float(s)` on a string: optional surrounding whitespace and
sign, then a decimal literal or `inf`/`infinity`/`nan` (case-insensitive).
`none` models a raised `ValueError`. -/
def parseFloatStr (s : String) : Option PFloat :=
  let cs := (((s.data.dropWhile Char.isWhitespace).reverse.dropWhile
      Char.isWhitespace).reverse).map Char.toLower
  let (neg, body) :=
    match cs with
    | '+' :: r => (false, r)
    | '-' :: r => (true, r)
    | _ => (false, cs)
  if body == ['i', 'n', 'f'] ∨ body == ['i', 'n', 'f', 'i', 'n', 'i', 't', 'y'] ∨
     body == ['n', 'a', 'n'] then
    some .nanf
  else
    (parseFloatBody body).map fun q => .fin (if neg then -q else q)

/-- Python `int(s)` on a string: optional whitespace and sign, then digits
only (so `"2.5"` raises). -/
def parseIntStr (s : String) : Option ℤ :=
  let cs := ((s.data.dropWhile Char.isWhitespace).reverse.dropWhile
      Char.isWhitespace).reverse
  let (neg, body) :=
    match cs with
    | '+' :: r => (false, r)
    | '-' :: r => (true, r)
    | _ => (false, cs)
  match readDigits body with
  | some (n, []) => some (if neg then -(n : ℤ) else (n : ℤ))
  | _ => none

/-- Python `float(v)`; `none` models a raised TypeError/ValueError. -/
def pyFloat : PyVal → Option PFloat
  | .null => none
  | .num q => some (.fin q)
  | .nan => some .nanf
  | .str s => parseFloatStr s
  | .dict _ => none

/-- Truncation of a rational toward zero, as Python `int(float)` does. -/
def ratTrunc (q : ℚ) : ℤ :=
  if 0 ≤ q.num then (q.num.toNat / q.den : ℕ) else -((q.num.natAbs / q.den : ℕ) : ℤ)

/-- Python `int(v)`; `none` models a raised TypeError/ValueError
(`int(nan)` and `int(None)` both raise). -/
def pyInt : PyVal → Option ℤ
  | .null => none
  | .num q => some (ratTrunc q)
  | .nan => none
  | .str s => parseIntStr s
  | .dict _ => none

-- ---------------------------------------------------------------------
-- Python round(x, n): decimal rounding with ties-to-even
-- ---------------------------------------------------------------------

/-- Round a rational to the nearest integer, ties to even (Python's
`round`). -/
def roundHalfEven (q : ℚ) : ℤ :=
  let f := ⌊q⌋
  let r := q - (f : ℚ)
  if r < 1 / 2 then f
  else if 1 / 2 < r then f + 1
  else if f % 2 = 0 then f else f + 1

/-- Python `round(q, nd)` on the exact rational model. -/
def pyRound (q : ℚ) (nd : ℕ) : ℚ :=
  (roundHalfEven (q * (10 : ℚ) ^ nd) : ℚ) / (10 : ℚ) ^ nd

-- ---------------------------------------------------------------------
-- Python dicts as association lists in insertion order
-- ---------------------------------------------------------------------

/-- `d.get(k)` / `k in d`: first (and only) binding of `k`. -/
def dictGet {α : Type} : List (String × α) → String → Option α
  | [], _ => none
  | (k', v) :: rest, k => if k' = k then some v else dictGet rest k

/-- `d[k] = v`: replace in place if the key exists, else append. -/
def dictSet {α : Type} : List (String × α) → String → α → List (String × α)
  | [], k, v => [(k, v)]
  | (k', v') :: rest, k, v =>
    if k' = k then (k, v) :: rest else (k', v') :: dictSet rest k v

/-- `d.setdefault(k, []).extend(vs)`: extend in place if the key exists,
else append a new binding. -/
def dictSetdefaultExtend {α : Type} :
    List (String × List α) → String → List α → List (String × List α)
  | [], k, vs => [(k, vs)]
  | (k', v') :: rest, k, vs =>
    if k' = k then (k', v' ++ vs) :: rest
    else (k', v') :: dictSetdefaultExtend rest k vs

-- ---------------------------------------------------------------------
-- Data model: raw series and normalized readings
-- ---------------------------------------------------------------------

/-- One raw reading as reported upstream: the `datetime` and `value`
entries of the reading dict (`r.get(...)` yields `None` when absent,
which `PyVal.null` covers). -/
structure RawReading where
  time : PyVal
  value : PyVal

/-- One upstream measurement series: its metadata fields (port fields,
label fields, nested metadata dicts, ...) and its `readings` array. -/
structure RawSeries where
  fields : List (String × PyVal)
  readings : List RawReading

/-- A normalized reading `{time, value}` as produced by `_reading_list`. -/
structure Reading where
  time : PyVal
  value : PyVal

/-- A device snapshot: the normalized mapping from channel name to its
reading sequence, in insertion order. -/
def Snapshot : Type := List (String × List Reading)

-- ---------------------------------------------------------------------
-- Regex scanners for the port patterns (test2.py `_series_port`)
-- ---------------------------------------------------------------------

/-- After the literal part of pattern 1/3 matched: `\s*[:#]?\s*(\d+)`.
The character classes are disjoint, so the greedy quantifiers need no
backtracking. -/
def sepThenDigits (cs : List Char) : Option ℕ :=
  let cs1 := cs.dropWhile Char.isWhitespace
  let cs2 :=
    match cs1 with
    | c :: rest => if c == ':' ∨ c == '#' then rest else cs1
    | [] => []
  let cs3 := cs2.dropWhile Char.isWhitespace
  (readDigits cs3).map Prod.fst

/-- One attempt of pattern `(?:port|p)\s*[:#]?\s*(\d+)` at the head of the
(lowercased) text; the alternation tries `port` before the bare `p`. -/
def portPatAt (cs : List Char) : Option ℕ :=
  (if charsStartWith cs ['p', 'o', 'r', 't'] then sepThenDigits (cs.drop 4) else none).orElse
    fun _ => if charsStartWith cs ['p'] then sepThenDigits (cs.drop 1) else none

/-- `re.search` of pattern 1, leftmost match wins. -/
def portPatSearch : List Char → Option ℕ
  | [] => none
  | c :: cs =>
    match portPatAt (c :: cs) with
    | some n => some n
    | none => portPatSearch cs

/-- Inner scan of pattern 2 `\(.*port\s*(\d+).*\)` after the opening
parenthesis: the greedy `.*` makes the regex take the rightmost
`port\s*\d+` that is still followed by a closing parenthesis. -/
def parenPortAfter : List Char → Option ℕ → Option ℕ
  | [], acc => acc
  | c :: cs, acc =>
    let here :=
      if charsStartWith (c :: cs) ['p', 'o', 'r', 't'] then
        match readDigits (((c :: cs).drop 4).dropWhile Char.isWhitespace) with
        | some (n, rest) => if rest.contains ')' then some n else none
        | none => none
      else none
    parenPortAfter cs (match here with | some n => some n | none => acc)

/-- `re.search` of pattern 2: the leftmost `(` whose suffix completes the
pattern.  (This pattern is subsumed by pattern 1 and is dead code in the
source, since any `port…digits` text already matches pattern 1.) -/
def parenPortSearch : List Char → Option ℕ
  | [] => none
  | '(' :: cs =>
    (match parenPortAfter cs none with
     | some n => some n
     | none => parenPortSearch cs)
  | _ :: cs => parenPortSearch cs

/-- Word characters for the `\b` boundary (`[A-Za-z0-9_]`, ASCII). -/
def isWordChar (c : Char) : Bool := c.isAlphanum || c == '_'

/-- Pattern 3 `\bch(?:annel)?\s*[:#]?\s*(\d+)`: at a word boundary, try
the long alternative `channel` first, backtracking to bare `ch`. -/
def chanPatAt (cs : List Char) : Option ℕ :=
  if charsStartWith cs ['c', 'h'] then
    (if charsStartWith (cs.drop 2) ['a', 'n', 'n', 'e', 'l'] then
       sepThenDigits (cs.drop 7)
     else none).orElse fun _ => sepThenDigits (cs.drop 2)
  else none

/-- Search for pattern 3, carrying the previous character for the word
boundary (`none` at the start of the text). -/
def chanPatSearch (prev : Option Char) : List Char → Option ℕ
  | [] => none
  | c :: cs =>
    match (if (prev.map isWordChar).getD false then none else chanPatAt (c :: cs)) with
    | some n => some n
    | none => chanPatSearch (some c) cs

/-- Pattern 4 `\b(\d+)\s*cm\b` at the head: greedy digits, spaces, `cm`,
then a word boundary. -/
def cmPatAt (cs : List Char) : Option ℕ :=
  match readDigits cs with
  | some (n, rest) =>
    let rest' := rest.dropWhile Char.isWhitespace
    if charsStartWith rest' ['c', 'm'] then
      match rest'.drop 2 with
      | [] => some n
      | d :: _ => if isWordChar d then none else some n
    else none
  | none => none

/-- Search for pattern 4 with its leading word boundary. -/
def cmPatSearch (prev : Option Char) : List Char → Option ℕ
  | [] => none
  | c :: cs =>
    match (if (prev.map isWordChar).getD false then none else cmPatAt (c :: cs)) with
    | some n => some n
    | none => cmPatSearch (some c) cs

-- ---------------------------------------------------------------------
-- Port resolver (`_series_port`)
-- ---------------------------------------------------------------------

/-- The fixed ordered list of direct port field names. -/
def portFieldKeys : List String :=
  ["port", "port_num", "source_port", "channel", "port_number"]

/-- The nesting keys tried for nested metadata (test2.py only). -/
def nestKeys : List String := ["sensor", "metadata", "source", "info"]

/-- First key in `keys` that is present, not `None`, and coercible to int
(`int()` failures fall through to the next key). -/
def scanPortKeys (fields : List (String × PyVal)) : List String → Option ℤ
  | [] => none
  | k :: ks =>
    match dictGet fields k with
    | some v =>
      match v with
      | .null => scanPortKeys fields ks
      | v' =>
        match pyInt v' with
        | some n => some n
        | none => scanPortKeys fields ks
    | none => scanPortKeys fields ks

/-- The nested pass: for each nesting key whose value is a dict, run the
direct key scan on the sub-dict. -/
def scanNestKeys (fields : List (String × PyVal)) : List String → Option ℤ
  | [] => none
  | k :: ks =>
    match dictGet fields k with
    | some (.dict sub) =>
      match scanPortKeys sub portFieldKeys with
      | some n => some n
      | none => scanNestKeys fields ks
    | _ => scanNestKeys fields ks

/-- Try the four regex patterns, in order, on one label string. -/
def labelPatterns (s : String) : Option ℕ :=
  let lo := lowerChars s
  match portPatSearch lo with
  | some n => some n
  | none =>
    match parenPortSearch lo with
    | some n => some n
    | none =>
      match chanPatSearch none lo with
      | some n => some n
      | none => cmPatSearch none lo

/-- The regex pass over the label-like fields. -/
def scanLabelKeys (fields : List (String × PyVal)) : List String → Option ℤ
  | [] => none
  | k :: ks =>
    match dictGet fields k with
    | some (.str s) =>
      match labelPatterns s with
      | some n => some (n : ℤ)
      | none => scanLabelKeys fields ks
    | _ => scanLabelKeys fields ks

/-- `_series_port` (test2.py): direct numeric fields, then the same fields
on nested metadata dicts, then regex matching over label-like text fields;
`none` when no heuristic matches. -/
def series_port (s : RawSeries) : Option ℤ :=
  match scanPortKeys s.fields portFieldKeys with
  | some n => some n
  | none =>
    match scanNestKeys s.fields nestKeys with
    | some n => some n
    | none =>
      scanLabelKeys s.fields
        ["series_label", "label", "name", "sensor_name", "series_name", "title"]

/-- `_series_port` (app.py variant): direct numeric fields, then only the
first regex pattern over a shorter list of label fields. -/
def series_port_app (s : RawSeries) : Option ℤ :=
  match scanPortKeys s.fields portFieldKeys with
  | some n => some n
  | none =>
    scanLabelKeysApp s.fields
      ["series_label", "label", "name", "sensor_name", "series_name"]
where
  scanLabelKeysApp (fields : List (String × PyVal)) : List String → Option ℤ
    | [] => none
    | k :: ks =>
      match dictGet fields k with
      | some (.str lbl) =>
        match portPatSearch (lowerChars lbl) with
        | some n => some (n : ℤ)
        | none => scanLabelKeysApp fields ks
      | _ => scanLabelKeysApp fields ks

-- ---------------------------------------------------------------------
-- Unit converters (`_to_pct`, `_to_f`, `_to_in`)
-- ---------------------------------------------------------------------

/-- `_to_pct`: coerce to float, `None` on failure or non-finite input;
a value ≤ 1 is treated as a fraction and scaled by 100, otherwise it is
already a percent; the result is rounded to 1 decimal. -/
def to_pct (val : PyVal) : Option ℚ :=
  match pyFloat val with
  | none => none
  | some .nanf => none
  | some (.fin v) => some (if v ≤ 1 then pyRound (v * 100) 1 else pyRound v 1)

/-- `_to_f`: Celsius to Fahrenheit, rounded to 1 decimal; `None` on
non-numeric or non-finite input. -/
def to_f (c : PyVal) : Option ℚ :=
  match pyFloat c with
  | none => none
  | some .nanf => none
  | some (.fin v) => some (pyRound (v * 9 / 5 + 32) 1)

/-- `_to_in`: millimeters to inches, rounded to 3 decimals; `None` on
non-numeric or non-finite input. -/
def to_in (mm : PyVal) : Option ℚ :=
  match pyFloat mm with
  | none => none
  | some .nanf => none
  | some (.fin v) => some (pyRound (v / (254 / 10)) 3)

-- ---------------------------------------------------------------------
-- Label classification
-- ---------------------------------------------------------------------

/-- The moisture label tokens (`_WC_LABEL_TOKENS`). -/
def wcLabelTokens : List String :=
  ["water content", "volumetric water content", "soil vwc", "vwc"]

/-- The matric-potential label tokens (`_MP_LABEL_TOKENS`). -/
def mpLabelTokens : List String :=
  ["matric potential", "water potential", "soil water potential"]

/-- `_is_water_content_label` / `__label_is_wc`. -/
def isWaterContentLabel (label : String) : Bool :=
  wcLabelTokens.any fun tok => lowerHas label tok

/-- `_is_matric_potential_label` / `__label_is_mp`. -/
def isMatricPotentialLabel (label : String) : Bool :=
  mpLabelTokens.any fun tok => lowerHas label tok

/-- The semantic sensor families of the specification. -/
inductive Family where
  | moisture
  | temperature
  | conductivity
  | potential
  | other
deriving DecidableEq

/-- The label dispatch order of `fetch_fresh_data` (test2.py): the
moisture check, then the matric-potential check, then passthrough. -/
def classifyT2 (label : String) : Family :=
  if isWaterContentLabel label then .moisture
  else if isMatricPotentialLabel label then .potential
  else .other

/-- The label dispatch order of `fetch_fresh_data_for` (app.py): the
moisture check, then soil temperature, then the conductivity check
(whose tokens include the bare substring `"ec"`), and only then the
matric-potential check. -/
def classifyApp (label : String) : Family :=
  if isWaterContentLabel label then .moisture
  else if lowerHas label "soil temperature" then .temperature
  else if lowerHas label "electrical conductivity" ||
          lowerHas label "saturation extract ec" ||
          lowerHas label "ec" then .conductivity
  else if isMatricPotentialLabel label then .potential
  else .other

-- ---------------------------------------------------------------------
-- Series normalizer (`_reading_list` / `__reading_list`)
-- ---------------------------------------------------------------------

/-- `_reading_list`: one normalized reading per raw reading; the value is
coerced with `float(...)`, and on TypeError/ValueError the original raw
value is kept unchanged (`except: pass`). -/
def reading_list (s : RawSeries) : List Reading :=
  s.readings.map fun r =>
    { time := r.time
      value :=
        match pyFloat r.value with
        | some f => f.toVal
        | none => r.value }

-- ---------------------------------------------------------------------
-- Channel names
-- ---------------------------------------------------------------------

def chanP1 : String := "TEROS 12 Soil VWC @ 10cm (P1)"
def chanP2 : String := "TEROS 12 Soil VWC @ 20cm (P2)"
def chanP4 : String := "TEROS 12 Soil VWC @ 10cm (P4)"
def chanP5 : String := "TEROS 12 Soil VWC @ 20cm (P5)"
def legacy10 : String := "TEROS 12 Soil VWC @ 10cm"
def legacy20 : String := "TEROS 12 Soil VWC @ 20cm"
def chanP3 : String := "TEROS 21 Matric Potential (P3)"
def chanP6 : String := "TEROS 21 Matric Potential (P6)"

-- ---------------------------------------------------------------------
-- Device sensor mapper, port-driven (`fetch_fresh_data`, test2.py)
-- ---------------------------------------------------------------------

/-- One water-content series step of `fetch_fresh_data`: resolve the port
and assign the readings to the port channel (ports 1 and 2 also write the
legacy unsuffixed channel); unknown ports extend the shared fallback
channel `"Water Content"`. -/
def wcAssign (sensors : Snapshot) (s : RawSeries) : Snapshot :=
  let p := series_port s
  let readings := reading_list s
  if p = some 1 then
    dictSet (dictSet sensors chanP1 readings) legacy10 readings
  else if p = some 2 then
    dictSet (dictSet sensors chanP2 readings) legacy20 readings
  else if p = some 4 then dictSet sensors chanP4 readings
  else if p = some 5 then dictSet sensors chanP5 readings
  else dictSetdefaultExtend sensors "Water Content" readings

/-- One matric-potential series step of `fetch_fresh_data`: port 3 and
port 6 get fixed channels, anything else extends the shared fallback
channel `"Matric Potential"`. -/
def mpAssign (sensors : Snapshot) (s : RawSeries) : Snapshot :=
  let p := series_port s
  let readings := reading_list s
  if p = some 3 then dictSet sensors chanP3 readings
  else if p = some 6 then dictSet sensors chanP6 readings
  else dictSetdefaultExtend sensors "Matric Potential" readings

/-- Processing of one `label -> series list` entry of the raw payload by
`fetch_fresh_data` (test2.py). -/
def labelStep (sensors : Snapshot) (x : String × List RawSeries) : Snapshot :=
  if isWaterContentLabel x.1 then x.2.foldl wcAssign sensors
  else if isMatricPotentialLabel x.1 then x.2.foldl mpAssign sensors
  else dictSet sensors x.1 (x.2.foldl (fun acc s => acc ++ reading_list s) [])

/-- The normalization core of `fetch_fresh_data` (test2.py): map one
device's raw payload (label -> list of series, in insertion order) to its
snapshot.  The network fetch and caching around it are excluded
collaborators. -/
def fetch_fresh_data (payload : List (String × List RawSeries)) : Snapshot :=
  payload.foldl labelStep []

-- ---------------------------------------------------------------------
-- Device sensor mapper, index-driven (`fetch_fresh_data_for`, app.py)
-- ---------------------------------------------------------------------

/-- The water-content branch of `fetch_fresh_data_for` (app.py): channels
are assigned by the series' position in the list, not by resolved port. -/
def wcAssignApp (sensors : Snapshot) (i : ℕ) (s : RawSeries) : Snapshot :=
  let readings := reading_list s
  if i = 0 then dictSet (dictSet sensors chanP1 readings) legacy10 readings
  else if i = 1 then dictSet (dictSet sensors chanP2 readings) legacy20 readings
  else if i = 2 then dictSet sensors chanP4 readings
  else if i = 3 then dictSet sensors chanP5 readings
  else dictSetdefaultExtend sensors "Water Content" readings

/-- The soil-temperature branch of `fetch_fresh_data_for` (app.py). -/
def stAssignApp (sensors : Snapshot) (i : ℕ) (s : RawSeries) : Snapshot :=
  let readings := reading_list s
  if i = 0 then dictSet sensors "TEROS 12 Soil Temperature @ 10cm (P1)" readings
  else if i = 1 then dictSet sensors "TEROS 12 Soil Temperature @ 20cm (P2)" readings
  else if i = 2 then dictSet sensors "TEROS 12 Soil Temperature @ 10cm (P4)" readings
  else if i = 3 then dictSet sensors "TEROS 12 Soil Temperature @ 20cm (P5)" readings
  else dictSetdefaultExtend sensors "Soil Temperature" readings

/-- The electrical-conductivity branch of `fetch_fresh_data_for` (app.py). -/
def ecAssignApp (sensors : Snapshot) (i : ℕ) (s : RawSeries) : Snapshot :=
  let readings := reading_list s
  if i = 0 then dictSet sensors "TEROS 12 Electrical Conductivity @ 10cm (P1)" readings
  else if i = 1 then dictSet sensors "TEROS 12 Electrical Conductivity @ 20cm (P2)" readings
  else if i = 2 then dictSet sensors "TEROS 12 Electrical Conductivity @ 10cm (P4)" readings
  else if i = 3 then dictSet sensors "TEROS 12 Electrical Conductivity @ 20cm (P5)" readings
  else dictSetdefaultExtend sensors "Electrical Conductivity" readings

/-- The matric-potential branch of `fetch_fresh_data_for` (app.py). -/
def mpAssignApp (sensors : Snapshot) (i : ℕ) (s : RawSeries) : Snapshot :=
  let readings := reading_list s
  if i = 0 then dictSet sensors chanP3 readings
  else if i = 1 then dictSet sensors chanP6 readings
  else dictSetdefaultExtend sensors "Matric Potential" readings

/-- Fold an index-aware assignment over an enumerated series list
(Python `for i, series in enumerate(series_list)`). -/
def enumFold (f : Snapshot → ℕ → RawSeries → Snapshot)
    (sensors : Snapshot) (l : List RawSeries) : Snapshot :=
  l.enum.foldl (fun se iv => f se iv.1 iv.2) sensors

/-- Processing of one payload entry by `fetch_fresh_data_for` (app.py):
the dispatch order is water content, soil temperature, electrical
conductivity (bare `"ec"` token included), matric potential, passthrough. -/
def labelStepApp (sensors : Snapshot) (x : String × List RawSeries) : Snapshot :=
  if isWaterContentLabel x.1 then enumFold wcAssignApp sensors x.2
  else if lowerHas x.1 "soil temperature" then enumFold stAssignApp sensors x.2
  else if lowerHas x.1 "electrical conductivity" ||
          lowerHas x.1 "saturation extract ec" ||
          lowerHas x.1 "ec" then enumFold ecAssignApp sensors x.2
  else if isMatricPotentialLabel x.1 then enumFold mpAssignApp sensors x.2
  else dictSet sensors x.1 (x.2.foldl (fun acc s => acc ++ reading_list s) [])

/-- The normalization core of `fetch_fresh_data_for` (app.py). -/
def fetch_fresh_data_for (payload : List (String × List RawSeries)) : Snapshot :=
  payload.foldl labelStepApp []

-- ---------------------------------------------------------------------
-- Channel lookup (`_series`) and the table row builder
-- ---------------------------------------------------------------------

/-- Python truthiness-based `or` on the two lookups of `_series`:
`data.get(key) or data.get(key.title()) or []` (an empty list is falsy). -/
def series_get (data : Snapshot) (key : String) : List Reading :=
  match dictGet data key with
  | some l =>
    if l.isEmpty then
      match dictGet data (pyTitle key) with
      | some l' => if l'.isEmpty then [] else l'
      | none => []
    else l
  | none =>
    match dictGet data (pyTitle key) with
    | some l' => if l'.isEmpty then [] else l'
    | none => []

/-- `s[i]["value"] if i < len(s) and s else None`. -/
def valueAt (s : List Reading) (i : ℕ) : PyVal :=
  match s.get? i with
  | some r => r.value
  | none => .null

/-- One table row (`time, temp_f, precip_in, solar_w_m2, vpd_kpa,
soil10_pct, soil20_pct`).  The solar and VPD fields keep a possibly
non-finite float because the source applies a bare `float(...)` there. -/
structure TableRow where
  time : PyVal
  temp_f : Option ℚ
  precip_in : Option ℚ
  solar_w_m2 : Option PFloat
  vpd_kpa : Option PFloat
  soil10_pct : Option ℚ
  soil20_pct : Option ℚ

/-- The bare `float(s[i]["value"]) if i < len(s) and s and s[i].get("value")
is not None else None` of the row builder: unlike the converters this is
not wrapped in try/except, so a coercion failure raises (modelled as
`Except.error`). -/
def bareFloatAt (s : List Reading) (i : ℕ) : Except Unit (Option PFloat) :=
  match s.get? i with
  | some r =>
    match r.value with
    | .null => .ok none
    | v =>
      match pyFloat v with
      | some f => .ok (some f)
      | none => .error ()
  | none => .ok none

/-- Minimum of a nonempty list of lengths (Python `min(...)`). -/
def minOf (l : List ℕ) : ℕ :=
  match l with
  | [] => 0
  | x :: xs => xs.foldl Nat.min x

/-- `_build_table_rows` (test2.py): select the six channels (with the
generic `"Water Content"` fallback for the 10cm soil channel), pick the
first non-empty channel as base, truncate to the minimum length, and
build one row per index, taking the time from the base channel. -/
def build_table_rows (data : Snapshot) : Except Unit (List TableRow) :=
  let temp_s := series_get data "Air Temperature"
  let precip_s := series_get data "Precipitation"
  let solar_s := series_get data "Solar Radiation"
  let vpd_s := series_get data "VPD"
  let soil10_s :=
    let a := series_get data "TEROS 12 Soil VWC @ 10cm"
    if a.isEmpty then series_get data "Water Content" else a
  let soil20_s := series_get data "TEROS 12 Soil VWC @ 20cm"
  let comp := [temp_s, precip_s, solar_s, vpd_s, soil10_s, soil20_s]
  match comp.filter (fun s => !s.isEmpty) with
  | [] => .ok []
  | base :: _ =>
    let min_len :=
      minOf ((comp ++ [base]).map fun s => if s.isEmpty then base.length else s.length)
    (List.range min_len).mapM fun i => do
      let solar ← bareFloatAt solar_s i
      let vpd ← bareFloatAt vpd_s i
      pure
        { time := match base.get? i with | some r => r.time | none => .null
          temp_f := to_f (valueAt temp_s i)
          precip_in := to_in (valueAt precip_s i)
          solar_w_m2 := solar
          vpd_kpa := vpd
          soil10_pct := to_pct (valueAt soil10_s i)
          soil20_pct := to_pct (valueAt soil20_s i) }

-- ---------------------------------------------------------------------
-- Soil moisture aggregate (`get_soil_moistvals`)
-- ---------------------------------------------------------------------

/-- `_percent_series`: percent-convert every reading, dropping the ones
whose conversion yields `None`. -/
def percent_series (l : List Reading) : List (PyVal × ℚ) :=
  l.filterMap fun r => (to_pct r.value).map fun p => (r.time, p)

/-- The `latest` object returned by `get_soil_moistvals`. -/
structure SoilLatest where
  time : Option PyVal
  soil10_pct : Option ℚ
  soil20_pct : Option ℚ
  avg_pct : Option ℚ

/-- The result dict literal of `get_soil_moistvals`, built from the two
latest percent readings. -/
def mkSoilLatest (latest10 latest20 : Option (PyVal × ℚ)) : SoilLatest :=
  { time :=
      match latest10 with
      | some p => some p.1
      | none => match latest20 with | some p => some p.1 | none => none
    soil10_pct := latest10.map Prod.snd
    soil20_pct := latest20.map Prod.snd
    avg_pct :=
      match latest10, latest20 with
      | some a, some b => some (pyRound ((a.2 + b.2) / 2) 1)
      | some a, none => some a.2
      | none, some b => some b.2
      | none, none => none }

/-- `get_soil_moistvals` (test2.py): latest percent-converted 10cm/20cm
values and their 1-decimal average, with single-sided and empty
fallbacks. -/
def get_soil_moistvals (data : Snapshot) : SoilLatest :=
  let s10raw :=
    let a := series_get data "TEROS 12 Soil VWC @ 10cm"
    if a.isEmpty then series_get data "Water Content" else a
  let s20raw := series_get data "TEROS 12 Soil VWC @ 20cm"
  let s10 := percent_series s10raw
  let s20 := percent_series s20raw
  mkSoilLatest s10.getLast? s20.getLast?

-- ---------------------------------------------------------------------
-- Reading counts and assigned channels (for the zero-loss claim)
-- ---------------------------------------------------------------------

/-- The two legacy alias channels, excluded from the output count. -/
def legacyNames : List String := [legacy10, legacy20]

/-- Total number of readings across the output channels of a snapshot,
excluding the legacy alias channels. -/
def totalOut (d : Snapshot) : ℕ :=
  (d.map fun kv => if kv.1 ∈ legacyNames then 0 else kv.2.length).sum

/-- Total number of readings across all input series of a raw payload. -/
def totalIn (payload : List (String × List RawSeries)) : ℕ :=
  (payload.map fun x => (x.2.map fun s => s.readings.length).sum).sum

/-- The port-specific water-content channel for a resolved port, if any. -/
def portChanWC (p : ℤ) : Option String :=
  if p = 1 then some chanP1
  else if p = 2 then some chanP2
  else if p = 4 then some chanP4
  else if p = 5 then some chanP5
  else none

/-- The port-specific matric-potential channel for a resolved port. -/
def portChanMP (p : ℤ) : Option String :=
  if p = 3 then some chanP3 else if p = 6 then some chanP6 else none

/-- The port channels assigned by the series of one water-content label. -/
def wcChansOf (l : List RawSeries) : List String :=
  l.filterMap fun s => (series_port s).bind portChanWC

/-- The port channels assigned by the series of one matric-potential
label. -/
def mpChansOf (l : List RawSeries) : List String :=
  l.filterMap fun s => (series_port s).bind portChanMP

/-- The output keys a payload entry writes by dict assignment (as opposed
to the extend-only fallback channels): port channels for classified
labels, the label itself for passthrough. -/
def chansOfLabel (x : String × List RawSeries) : List String :=
  if isWaterContentLabel x.1 then wcChansOf x.2
  else if isMatricPotentialLabel x.1 then mpChansOf x.2
  else [x.1]

/-- All keys written by dict assignment over a whole payload. -/
def allChans (payload : List (String × List RawSeries)) : List String :=
  (payload.map chansOfLabel).flatten

-- =====================================================================
-- Lemmas and theorems
-- =====================================================================

-- ---------------------------------------------------------------------
-- Association-list lemmas
-- ---------------------------------------------------------------------

@[simp]
theorem dictGet_dictSet {α : Type} (d : List (String × α)) (k k' : String) (v : α) :
    dictGet (dictSet d k v) k' = if k = k' then some v else dictGet d k' := by
  induction d with
  | nil => simp [dictSet, dictGet]
  | cons kv rest ih =>
    obtain ⟨k₀, v₀⟩ := kv
    by_cases h : k₀ = k
    · subst h
      simp only [dictSet, if_pos rfl, dictGet]
      by_cases h' : k₀ = k' <;> simp [h']
    · simp only [dictSet, if_neg h, dictGet]
      by_cases h' : k₀ = k'
      · subst h'
        rw [if_neg (fun hk : k = k₀ => h hk.symm)]
        simp
      · simp [h', ih]

@[simp]
theorem dictGet_sdExtend {α : Type} (d : List (String × List α)) (k k' : String)
    (vs : List α) :
    dictGet (dictSetdefaultExtend d k vs) k' =
      if k = k' then some ((dictGet d k).getD [] ++ vs) else dictGet d k' := by
  induction d with
  | nil => simp [dictSetdefaultExtend, dictGet]
  | cons kv rest ih =>
    obtain ⟨k₀, v₀⟩ := kv
    by_cases h : k₀ = k
    · subst h
      simp only [dictSetdefaultExtend, if_pos rfl, dictGet]
      by_cases h' : k₀ = k' <;> simp [h']
    · simp only [dictSetdefaultExtend, if_neg h, dictGet]
      by_cases h' : k₀ = k'
      · subst h'
        rw [if_neg (fun hk : k = k₀ => h hk.symm)]
        simp
      · simp [h', ih]

-- ---------------------------------------------------------------------
-- Rounding on integer values
-- ---------------------------------------------------------------------

theorem roundHalfEven_intCast (n : ℤ) : roundHalfEven ((n : ℚ)) = n := by
  unfold roundHalfEven
  rw [Int.floor_intCast]
  norm_num

/-- `round(q, 1)` on a value that is an exact multiple of one tenth. -/
theorem pyRound_tenth (q : ℚ) (n : ℤ) (h : q * 10 = (n : ℚ)) :
    pyRound q 1 = (n : ℚ) / 10 := by
  unfold pyRound
  rw [pow_one, h, roundHalfEven_intCast]

-- ---------------------------------------------------------------------
-- C5: totality and determinism of the port resolver
-- ---------------------------------------------------------------------

/-- C5: `_series_port` is total — on every series object it returns either
an integer or `None`, never an error (every fallible coercion inside it is
guarded), and being a pure function of the series it is deterministic on
identical input; with no metadata at all it returns `None`. -/
theorem series_port_total_never_raises :
    (∀ s : RawSeries, (∃ n : ℤ, series_port s = some n) ∨ series_port s = none) ∧
    series_port ⟨[], []⟩ = none := by
  refine ⟨fun s => ?_, rfl⟩
  cases h : series_port s with
  | some n => exact Or.inl ⟨n, rfl⟩
  | none => exact Or.inr rfl

-- ---------------------------------------------------------------------
-- C4: direct port field beats label-text matching
-- ---------------------------------------------------------------------

/-- C4: whenever the series carries a `"port"` field whose value coerces
to an integer, both versions of `_series_port` return that integer — the
direct field is checked before any label-text pattern; in particular a
series with `port=2` and a label containing `"Port 1"` resolves to 2. -/
theorem series_port_direct_field_wins :
    (∀ (s : RawSeries) (v : PyVal) (n : ℤ),
        dictGet s.fields "port" = some v → pyInt v = some n →
        series_port s = some n ∧ series_port_app s = some n) ∧
    series_port ⟨[("port", .num 2), ("label", .str "Sensor Port 1")], []⟩ = some 2 := by
  constructor
  · intro s v n hget hint
    have hscan : scanPortKeys s.fields portFieldKeys = some n := by
      show scanPortKeys s.fields ("port" :: _) = some n
      unfold scanPortKeys
      rw [hget]
      cases v with
      | null => exact absurd hint (by simp [pyInt])
      | num q => simp [hint]
      | nan => exact absurd hint (by simp [pyInt])
      | str s' => simp [hint]
      | dict f => exact absurd hint (by simp [pyInt])
    constructor
    · unfold series_port
      rw [hscan]
    · unfold series_port_app
      rw [hscan]
  · rfl

/-- Witness for C4 at the concrete series of the claim. -/
theorem series_port_direct_field_wins_witness :
    series_port ⟨[("port", .num 2), ("label", .str "Sensor Port 1")], []⟩ = some 2 ∧
    series_port_app ⟨[("port", .num 2), ("label", .str "Sensor Port 1")], []⟩ = some 2 :=
  series_port_direct_field_wins.1
    ⟨[("port", .num 2), ("label", .str "Sensor Port 1")], []⟩ (.num 2) 2 rfl rfl

-- ---------------------------------------------------------------------
-- C6: value coercion in the series normalizer
-- ---------------------------------------------------------------------

/-- C6 counterexample: a raw value that cannot be parsed as a float is NOT
nulled — `_reading_list` keeps the original raw value (here the string
`"abc"`), because the failed `float(...)` is swallowed with `pass` and the
unmodified value is appended. -/
theorem reading_list_unparseable_kept_not_nulled :
    reading_list ⟨[], [⟨.str "t1", .str "abc"⟩]⟩ = [⟨.str "t1", .str "abc"⟩] ∧
    (PyVal.str "abc" ≠ PyVal.null) :=
  ⟨rfl, fun h => PyVal.noConfusion h⟩

/-- C6 amended: the coercion never raises; a value that `float(...)`
rejects is passed through unchanged into the normalized reading (so a
null value stays null, but a non-numeric string stays a string). -/
theorem reading_list_coercion_total :
    ∀ (s : RawSeries) (r : RawReading), r ∈ s.readings →
      pyFloat r.value = none →
      Reading.mk r.time r.value ∈ reading_list s := by
  intro s r hmem hfail
  unfold reading_list
  refine List.mem_map.mpr ⟨r, hmem, ?_⟩
  rw [hfail]

/-- Witness for the amended C6 at the concrete unparseable reading. -/
theorem reading_list_coercion_total_witness :
    Reading.mk (.str "t1") (.str "abc") ∈
      reading_list ⟨[], [⟨.str "t1", .str "abc"⟩]⟩ :=
  reading_list_coercion_total ⟨[], [⟨.str "t1", .str "abc"⟩]⟩
    ⟨.str "t1", .str "abc"⟩ (List.Mem.head _) rfl

-- ---------------------------------------------------------------------
-- Percent converter helper
-- ---------------------------------------------------------------------

/-- `_to_pct` on a finite numeric input in the fraction branch. -/
theorem to_pct_le_one (q : ℚ) (hq : q ≤ 1) :
    to_pct (.num q) = some (pyRound (q * 100) 1) := by
  show (match pyFloat (.num q) with
    | none => none
    | some .nanf => none
    | some (.fin v) => some (if v ≤ 1 then pyRound (v * 100) 1 else pyRound v 1)) =
    some (pyRound (q * 100) 1)
  simp [pyFloat, if_pos hq]

-- ---------------------------------------------------------------------
-- C10: percent converter on the fraction side of the boundary
-- ---------------------------------------------------------------------

/-- C10: for every finite numeric value `q ≤ 1` — including `q = 1` and
every negative `q` — `_to_pct` returns `round(q*100, 1)`; in particular
`to_pct(1) = 100.0` and `to_pct(-0.5) = -50.0`, so the output is not
clamped to the nominal 0–100 range. -/
theorem to_pct_fraction_boundary :
    (∀ q : ℚ, q ≤ 1 → to_pct (.num q) = some (pyRound (q * 100) 1)) ∧
    to_pct (.num 1) = some 100 ∧
    to_pct (.num (-(1 / 2))) = some (-50) := by
  refine ⟨to_pct_le_one, ?_, ?_⟩
  · rw [to_pct_le_one 1 le_rfl, pyRound_tenth (1 * 100) 1000 (by norm_num)]
    norm_num
  · rw [to_pct_le_one (-(1 / 2)) (by norm_num),
      pyRound_tenth (-(1 / 2) * 100) (-500) (by norm_num)]
    norm_num

/-- Witness for C10 at the boundary input 1. -/
theorem to_pct_fraction_boundary_witness :
    to_pct (.num 1) = some (pyRound ((1 : ℚ) * 100) 1) :=
  to_pct_fraction_boundary.1 1 le_rfl

-- ---------------------------------------------------------------------
-- C2: classification precedence for "Soil Water Potential EC Sensor"
-- ---------------------------------------------------------------------

/-- C2 counterexample: in app.py's `fetch_fresh_data_for` the
conductivity rule (which includes the bare token `"ec"`) is evaluated
BEFORE the matric-potential rule, so the label
`"Soil Water Potential EC Sensor"` is classified as conductivity and its
series land in the conductivity channel, not in a matric-potential
channel. -/
theorem potential_ec_label_goes_to_conductivity :
    classifyApp "Soil Water Potential EC Sensor" = .conductivity ∧
    classifyApp "Soil Water Potential EC Sensor" ≠ .potential ∧
    fetch_fresh_data_for
        [("Soil Water Potential EC Sensor", [⟨[], [⟨.str "t1", .num 1⟩]⟩])] =
      [("TEROS 12 Electrical Conductivity @ 10cm (P1)", [⟨.str "t1", .num 1⟩])] ∧
    dictGet (fetch_fresh_data_for
        [("Soil Water Potential EC Sensor", [⟨[], [⟨.str "t1", .num 1⟩]⟩])])
      chanP3 = none := by
  exact ⟨rfl, by decide, rfl, rfl⟩

/-- C2 amended: in `fetch_fresh_data` (test2.py) the moisture and
potential token rules are the only classification rules and any
potential-tokened label that is not moisture-tokened classifies as
POTENTIAL — in particular `"Soil Water Potential EC Sensor"`; in app.py's
`fetch_fresh_data_for`, however, the broad conductivity rule runs first
and claims that label. -/
theorem classify_potential_before_conductivity :
    (∀ label : String, isMatricPotentialLabel label = true →
        isWaterContentLabel label = false → classifyT2 label = .potential) ∧
    classifyT2 "Soil Water Potential EC Sensor" = .potential ∧
    classifyApp "Soil Water Potential EC Sensor" = .conductivity := by
  refine ⟨fun label hmp hwc => ?_, rfl, rfl⟩
  unfold classifyT2
  rw [hwc, hmp]
  rfl

/-- Witness for the amended C2 at the claim's label. -/
theorem classify_potential_before_conductivity_witness :
    classifyT2 "Soil Water Potential EC Sensor" = .potential :=
  classify_potential_before_conductivity.1 "Soil Water Potential EC Sensor" rfl rfl

-- ---------------------------------------------------------------------
-- C9: soil moisture aggregate
-- ---------------------------------------------------------------------

@[simp]
theorem mkSoilLatest_soil10 (u v : Option (PyVal × ℚ)) :
    (mkSoilLatest u v).soil10_pct = u.map Prod.snd := rfl

@[simp]
theorem mkSoilLatest_soil20 (u v : Option (PyVal × ℚ)) :
    (mkSoilLatest u v).soil20_pct = v.map Prod.snd := rfl

theorem mkSoilLatest_avg_both (p q : PyVal × ℚ) :
    (mkSoilLatest (some p) (some q)).avg_pct = some (pyRound ((p.2 + q.2) / 2) 1) := rfl

theorem mkSoilLatest_avg_left (p : PyVal × ℚ) :
    (mkSoilLatest (some p) none).avg_pct = some p.2 := rfl

theorem mkSoilLatest_avg_right (q : PyVal × ℚ) :
    (mkSoilLatest none (some q)).avg_pct = some q.2 := rfl

theorem mkSoilLatest_avg_neither : (mkSoilLatest none none).avg_pct = none := rfl

/-- Case analysis on the result dict of `get_soil_moistvals`. -/
theorem mkSoilLatest_avg (u v : Option (PyVal × ℚ)) :
    (∀ a b : ℚ, (mkSoilLatest u v).soil10_pct = some a →
      (mkSoilLatest u v).soil20_pct = some b →
      (mkSoilLatest u v).avg_pct = some (pyRound ((a + b) / 2) 1)) ∧
    (∀ a : ℚ, (mkSoilLatest u v).soil10_pct = some a →
      (mkSoilLatest u v).soil20_pct = none →
      (mkSoilLatest u v).avg_pct = some a) ∧
    (∀ b : ℚ, (mkSoilLatest u v).soil10_pct = none →
      (mkSoilLatest u v).soil20_pct = some b →
      (mkSoilLatest u v).avg_pct = some b) ∧
    ((mkSoilLatest u v).soil10_pct = none →
      (mkSoilLatest u v).soil20_pct = none →
      (mkSoilLatest u v).avg_pct = none) := by
  cases u with
  | none =>
    cases v with
    | none => simp [mkSoilLatest_avg_neither]
    | some q => simp [mkSoilLatest_avg_right]
  | some p =>
    cases v with
    | none => simp [mkSoilLatest_avg_left]
    | some q =>
      simp only [mkSoilLatest_soil10, mkSoilLatest_soil20, Option.map_some']
      refine ⟨fun a b h1 h2 => ?_, fun a h1 h2 => ?_, fun b h1 h2 => ?_, fun h1 => ?_⟩
      · rw [mkSoilLatest_avg_both, Option.some_inj.mp h1, Option.some_inj.mp h2]
      · exact absurd h2 (by simp)
      · exact absurd h1 (by simp)
      · exact absurd h1 (by simp)

/-- C9: when both latest percent values exist the aggregate is their
average rounded to 1 decimal; when exactly one exists it is that value;
when neither exists it is null. -/
theorem get_soil_moistvals_avg :
    (∀ (data : Snapshot) (a b : ℚ),
        (get_soil_moistvals data).soil10_pct = some a →
        (get_soil_moistvals data).soil20_pct = some b →
        (get_soil_moistvals data).avg_pct = some (pyRound ((a + b) / 2) 1)) ∧
    (∀ (data : Snapshot) (a : ℚ),
        (get_soil_moistvals data).soil10_pct = some a →
        (get_soil_moistvals data).soil20_pct = none →
        (get_soil_moistvals data).avg_pct = some a) ∧
    (∀ (data : Snapshot) (b : ℚ),
        (get_soil_moistvals data).soil10_pct = none →
        (get_soil_moistvals data).soil20_pct = some b →
        (get_soil_moistvals data).avg_pct = some b) ∧
    (∀ data : Snapshot,
        (get_soil_moistvals data).soil10_pct = none →
        (get_soil_moistvals data).soil20_pct = none →
        (get_soil_moistvals data).avg_pct = none) :=
  ⟨fun _ => (mkSoilLatest_avg _ _).1,
   fun _ => (mkSoilLatest_avg _ _).2.1,
   fun _ => (mkSoilLatest_avg _ _).2.2.1,
   fun _ => (mkSoilLatest_avg _ _).2.2.2⟩

/-- The snapshot of the claim's example: latest 10cm fraction 0.4 and
20cm fraction 0.6, i.e. 40% and 60%. -/
def snapSoil4060 : Snapshot :=
  [("TEROS 12 Soil VWC @ 10cm", [⟨.str "t1", .num (2 / 5)⟩]),
   ("TEROS 12 Soil VWC @ 20cm", [⟨.str "t1", .num (3 / 5)⟩])]

/-- Witness for C9: on the 40%/60% snapshot the hypotheses hold and the
average is 50.0. -/
theorem get_soil_moistvals_avg_witness :
    (get_soil_moistvals snapSoil4060).avg_pct = some (pyRound (((40 : ℚ) + 60) / 2) 1) ∧
    pyRound (((40 : ℚ) + 60) / 2) 1 = 50 := by
  have e10 : to_pct (.num (2 / 5)) = some 40 := by
    rw [to_pct_le_one (2 / 5) (by norm_num),
      pyRound_tenth (2 / 5 * 100) 400 (by norm_num)]
    norm_num
  have e20 : to_pct (.num (3 / 5)) = some 60 := by
    rw [to_pct_le_one (3 / 5) (by norm_num),
      pyRound_tenth (3 / 5 * 100) 600 (by norm_num)]
    norm_num
  have hs10 : series_get snapSoil4060 "TEROS 12 Soil VWC @ 10cm" =
      [⟨.str "t1", .num (2 / 5)⟩] := by
    simp [series_get, snapSoil4060, dictGet]
  have hs20 : series_get snapSoil4060 "TEROS 12 Soil VWC @ 20cm" =
      [⟨.str "t1", .num (3 / 5)⟩] := by
    simp [series_get, snapSoil4060, dictGet]
  have hmk : get_soil_moistvals snapSoil4060 =
      mkSoilLatest (some (.str "t1", 40)) (some (.str "t1", 60)) := by
    rw [get_soil_moistvals, hs10, hs20]
    simp [percent_series, e10, e20]
  have h10 : (get_soil_moistvals snapSoil4060).soil10_pct = some 40 := by
    rw [hmk]; rfl
  have h20 : (get_soil_moistvals snapSoil4060).soil20_pct = some 60 := by
    rw [hmk]; rfl
  refine ⟨get_soil_moistvals_avg.1 snapSoil4060 40 60 h10 h20, ?_⟩
  rw [show ((40 : ℚ) + 60) / 2 = 50 by norm_num,
    pyRound_tenth 50 500 (by norm_num)]
  norm_num

-- ---------------------------------------------------------------------
-- C3: moisture channel assignment by resolved port
-- ---------------------------------------------------------------------

/-- C3 counterexample: a moisture-classified label other than
`"Water Content"` whose series has no resolvable port does NOT get a
fallback channel named by the original label — the fallback channel is
the fixed name `"Water Content"`. -/
theorem wc_unknown_port_fallback_fixed_name :
    dictGet (fetch_fresh_data
        [("Soil VWC Sensor", [⟨[], [⟨.str "t1", .num 1⟩]⟩])]) "Soil VWC Sensor" = none ∧
    fetch_fresh_data [("Soil VWC Sensor", [⟨[], [⟨.str "t1", .num 1⟩]⟩])] =
      [("Water Content", [⟨.str "t1", .num 1⟩])] :=
  ⟨rfl, rfl⟩

/-- C3 amended: for a moisture-classified label, `fetch_fresh_data`
resolves each series' port with `_series_port` and assigns its readings
per the fixed port→depth table (1 → 10cm(P1), 2 → 20cm(P2), 4 → 10cm(P4),
5 → 20cm(P5), ports 1/2 also writing the legacy alias); any other
resolution lands the readings, undropped, on the shared fallback channel
named `"Water Content"` (not on a channel named by the original label). -/
theorem wc_port_to_channel_table :
    ∀ (lab : String) (s : RawSeries), isWaterContentLabel lab = true →
      (series_port s = some 1 →
        fetch_fresh_data [(lab, [s])] =
          [(chanP1, reading_list s), (legacy10, reading_list s)]) ∧
      (series_port s = some 2 →
        fetch_fresh_data [(lab, [s])] =
          [(chanP2, reading_list s), (legacy20, reading_list s)]) ∧
      (series_port s = some 4 →
        fetch_fresh_data [(lab, [s])] = [(chanP4, reading_list s)]) ∧
      (series_port s = some 5 →
        fetch_fresh_data [(lab, [s])] = [(chanP5, reading_list s)]) ∧
      (∀ p : ℤ, series_port s = some p → p ≠ 1 → p ≠ 2 → p ≠ 4 → p ≠ 5 →
        fetch_fresh_data [(lab, [s])] = [("Water Content", reading_list s)]) ∧
      (series_port s = none →
        fetch_fresh_data [(lab, [s])] = [("Water Content", reading_list s)]) := by
  intro lab s hwc
  have hstep : fetch_fresh_data [(lab, [s])] = wcAssign [] s := by
    simp [fetch_fresh_data, labelStep, hwc]
  refine ⟨fun h => ?_, fun h => ?_, fun h => ?_, fun h => ?_,
    fun p h h1 h2 h4 h5 => ?_, fun h => ?_⟩ <;>
    rw [hstep] <;> unfold wcAssign <;> rw [h]
  · simp [dictSet, chanP1, legacy10]
  · simp [dictSet, chanP2, legacy20]
  · simp [dictSet]
  · simp [dictSet]
  · simp [dictSetdefaultExtend, h1, h2, h4, h5]
  · simp [dictSetdefaultExtend]

/-- Witness for the amended C3 at a port-4 series under the label
`"Water Content"`. -/
theorem wc_port_to_channel_table_witness :
    fetch_fresh_data [("Water Content", [⟨[("port", .str "4")], [⟨.str "t1", .num 1⟩]⟩])] =
      [(chanP4, reading_list ⟨[("port", .str "4")], [⟨.str "t1", .num 1⟩]⟩)] :=
  (wc_port_to_channel_table "Water Content"
    ⟨[("port", .str "4")], [⟨.str "t1", .num 1⟩]⟩ rfl).2.2.1 rfl

-- ---------------------------------------------------------------------
-- C8: table row count and base alignment
-- ---------------------------------------------------------------------

/-- C8: with 3 temperature readings, 2 precipitation readings and every
other selected channel absent, `_build_table_rows` succeeds with exactly
2 rows (the minimum over the non-empty selected channels), and each row's
time comes from the base channel — the first non-empty channel in the
fixed order, here temperature. -/
theorem build_table_rows_truncates_to_shortest
    (data : Snapshot) (t0 t1 t2 p0 p1 : Reading) :
    series_get data "Air Temperature" = [t0, t1, t2] →
    series_get data "Precipitation" = [p0, p1] →
    series_get data "Solar Radiation" = [] →
    series_get data "VPD" = [] →
    series_get data "TEROS 12 Soil VWC @ 10cm" = [] →
    series_get data "TEROS 12 Soil VWC @ 20cm" = [] →
    series_get data "Water Content" = [] →
    ∃ rows, build_table_rows data = Except.ok rows ∧ rows.length = 2 ∧
      rows.map TableRow.time = [t0.time, t1.time] := by
  intro h1 h2 h3 h4 h5 h6 h7
  unfold build_table_rows
  rw [h1, h2, h3, h4, h5, h6, h7]
  exact ⟨_, rfl, rfl, rfl⟩

/-- Concrete snapshot for the C8 witness: 3 temperature readings and 2
precipitation readings. -/
def snapTable32 : Snapshot :=
  [("Air Temperature", [⟨.str "ta", .num 1⟩, ⟨.str "tb", .num 2⟩, ⟨.str "tc", .num 3⟩]),
   ("Precipitation", [⟨.str "ta", .num 0⟩, ⟨.str "tb", .num 1⟩])]

/-- Witness for C8 on the concrete 3/2 snapshot. -/
theorem build_table_rows_truncates_to_shortest_witness :
    ∃ rows, build_table_rows snapTable32 = Except.ok rows ∧ rows.length = 2 ∧
      rows.map TableRow.time = [.str "ta", .str "tb"] :=
  build_table_rows_truncates_to_shortest snapTable32
    ⟨.str "ta", .num 1⟩ ⟨.str "tb", .num 2⟩ ⟨.str "tc", .num 3⟩
    ⟨.str "ta", .num 0⟩ ⟨.str "tb", .num 1⟩
    rfl rfl rfl rfl rfl rfl rfl

-- ---------------------------------------------------------------------
-- C7: moisture legacy aliasing
-- ---------------------------------------------------------------------

/-- A label that is not moisture-classified differs from all four
moisture channel names (each of which contains a moisture token). -/
theorem non_wc_label_ne_wc_chans (lab : String)
    (h : isWaterContentLabel lab = false) :
    lab ≠ chanP1 ∧ lab ≠ chanP2 ∧ lab ≠ legacy10 ∧ lab ≠ legacy20 := by
  refine ⟨?_, ?_, ?_, ?_⟩ <;> rintro rfl <;> revert h <;> decide

/-- The legacy-alias pairing invariant: the P1 channel always equals the
unsuffixed 10cm channel and the P2 channel the unsuffixed 20cm channel. -/
def LegacyInv (d : Snapshot) : Prop :=
  dictGet d chanP1 = dictGet d legacy10 ∧ dictGet d chanP2 = dictGet d legacy20

theorem legacyInv_wcAssign (d : Snapshot) (s : RawSeries) (h : LegacyInv d) :
    LegacyInv (wcAssign d s) := by
  obtain ⟨h1, h2⟩ := h
  unfold wcAssign LegacyInv
  dsimp only
  split_ifs <;>
    simp_all [chanP1, chanP2, chanP4, chanP5, legacy10, legacy20]

theorem legacyInv_mpAssign (d : Snapshot) (s : RawSeries) (h : LegacyInv d) :
    LegacyInv (mpAssign d s) := by
  obtain ⟨h1, h2⟩ := h
  unfold mpAssign LegacyInv
  dsimp only
  split_ifs <;>
    simp_all [chanP1, chanP2, chanP3, chanP6, legacy10, legacy20]

theorem legacyInv_wcFold (l : List RawSeries) :
    ∀ d : Snapshot, LegacyInv d → LegacyInv (l.foldl wcAssign d) := by
  induction l with
  | nil => exact fun d h => h
  | cons s rest ih => exact fun d h => ih _ (legacyInv_wcAssign d s h)

theorem legacyInv_mpFold (l : List RawSeries) :
    ∀ d : Snapshot, LegacyInv d → LegacyInv (l.foldl mpAssign d) := by
  induction l with
  | nil => exact fun d h => h
  | cons s rest ih => exact fun d h => ih _ (legacyInv_mpAssign d s h)

theorem legacyInv_labelStep (d : Snapshot) (x : String × List RawSeries)
    (h : LegacyInv d) : LegacyInv (labelStep d x) := by
  unfold labelStep
  split_ifs with hwc hmp
  · exact legacyInv_wcFold x.2 d h
  · exact legacyInv_mpFold x.2 d h
  · obtain ⟨n1, n2, n3, n4⟩ :=
      non_wc_label_ne_wc_chans x.1 (Bool.eq_false_iff.mpr hwc)
    obtain ⟨h1, h2⟩ := h
    constructor <;> simp [n1, n2, n3, n4, h1, h2]

theorem legacyInv_fetch (payload : List (String × List RawSeries)) :
    LegacyInv (fetch_fresh_data payload) := by
  have main : ∀ (p : List (String × List RawSeries)) (d : Snapshot),
      LegacyInv d → LegacyInv (p.foldl labelStep d) := by
    intro p
    induction p with
    | nil => exact fun d h => h
    | cons x rest ih => exact fun d h => ih _ (legacyInv_labelStep d x h)
  exact main payload [] ⟨rfl, rfl⟩

/-- Keys present in a snapshot survive any further dict write. -/
theorem isSome_dictSet (d : Snapshot) (k k' : String) (v : List Reading)
    (h : (dictGet d k').isSome = true) :
    (dictGet (dictSet d k v) k').isSome = true := by
  rw [dictGet_dictSet]
  split_ifs <;> simp_all

theorem isSome_sdExtend (d : Snapshot) (k k' : String) (v : List Reading)
    (h : (dictGet d k').isSome = true) :
    (dictGet (dictSetdefaultExtend d k v) k').isSome = true := by
  rw [dictGet_sdExtend]
  split_ifs <;> simp_all

theorem isSome_wcAssign (d : Snapshot) (s : RawSeries) (k : String)
    (h : (dictGet d k).isSome = true) :
    (dictGet (wcAssign d s) k).isSome = true := by
  unfold wcAssign
  dsimp only
  split_ifs <;>
    solve
    | exact isSome_dictSet _ _ _ _ (isSome_dictSet _ _ _ _ h)
    | exact isSome_dictSet _ _ _ _ h
    | exact isSome_sdExtend _ _ _ _ h

theorem isSome_mpAssign (d : Snapshot) (s : RawSeries) (k : String)
    (h : (dictGet d k).isSome = true) :
    (dictGet (mpAssign d s) k).isSome = true := by
  unfold mpAssign
  dsimp only
  split_ifs <;>
    solve
    | exact isSome_dictSet _ _ _ _ h
    | exact isSome_sdExtend _ _ _ _ h

theorem isSome_labelStep (d : Snapshot) (x : String × List RawSeries) (k : String)
    (h : (dictGet d k).isSome = true) :
    (dictGet (labelStep d x) k).isSome = true := by
  unfold labelStep
  have wcf : ∀ (l : List RawSeries) (d : Snapshot),
      (dictGet d k).isSome = true → (dictGet (l.foldl wcAssign d) k).isSome = true := by
    intro l
    induction l with
    | nil => exact fun d h => h
    | cons s rest ih => exact fun d h => ih _ (isSome_wcAssign d s k h)
  have mpf : ∀ (l : List RawSeries) (d : Snapshot),
      (dictGet d k).isSome = true → (dictGet (l.foldl mpAssign d) k).isSome = true := by
    intro l
    induction l with
    | nil => exact fun d h => h
    | cons s rest ih => exact fun d h => ih _ (isSome_mpAssign d s k h)
  split_ifs
  · exact wcf x.2 d h
  · exact mpf x.2 d h
  · exact isSome_dictSet _ _ _ _ h

theorem isSome_labelFold (p : List (String × List RawSeries)) :
    ∀ (d : Snapshot) (k : String), (dictGet d k).isSome = true →
      (dictGet (p.foldl labelStep d) k).isSome = true := by
  induction p with
  | nil => exact fun d k h => h
  | cons x rest ih => exact fun d k h => ih _ _ (isSome_labelStep d x k h)

/-- A port-1 (resp. port-2) moisture series makes its channel present in
the snapshot after its label's fold. -/
theorem wcFold_present (l : List RawSeries) :
    ∀ (d : Snapshot) (s : RawSeries), s ∈ l →
      ((series_port s = some 1 →
        (dictGet (l.foldl wcAssign d) chanP1).isSome = true) ∧
       (series_port s = some 2 →
        (dictGet (l.foldl wcAssign d) chanP2).isSome = true)) := by
  induction l with
  | nil => intro d s h; cases h
  | cons hd rest ih =>
    intro d s hmem
    rcases List.mem_cons.mp hmem with heq | htail
    · subst heq
      have wcf : ∀ (l2 : List RawSeries) (d2 : Snapshot) (k : String),
          (dictGet d2 k).isSome = true →
          (dictGet (l2.foldl wcAssign d2) k).isSome = true := by
        intro l2
        induction l2 with
        | nil => exact fun d2 k h => h
        | cons s2 rest2 ih2 => exact fun d2 k h => ih2 _ _ (isSome_wcAssign d2 s2 k h)
      constructor <;> intro hp <;>
        refine wcf rest _ _ ?_ <;>
        unfold wcAssign <;> rw [hp] <;> simp [chanP1, chanP2, legacy10, legacy20]
    · exact ih _ s htail

/-- Presence of the port channel in the final snapshot, for a moisture
label anywhere in the payload. -/
theorem fetch_wc_present (payload : List (String × List RawSeries)) :
    ∀ (d : Snapshot) (lab : String) (l : List RawSeries) (s : RawSeries),
      (lab, l) ∈ payload → isWaterContentLabel lab = true → s ∈ l →
      ((series_port s = some 1 →
        (dictGet (payload.foldl labelStep d) chanP1).isSome = true) ∧
       (series_port s = some 2 →
        (dictGet (payload.foldl labelStep d) chanP2).isSome = true)) := by
  induction payload with
  | nil => intro d lab l s h; cases h
  | cons x rest ih =>
    intro d lab l s hmem hwc hs
    rcases List.mem_cons.mp hmem with heq | htail
    · subst heq
      have hstep : labelStep d (lab, l) = l.foldl wcAssign d := by
        simp [labelStep, hwc]
      constructor <;> intro hp <;>
        exact isSome_labelFold rest _ _ (by
          rw [hstep]
          first
          | exact (wcFold_present l d s hs).1 hp
          | exact (wcFold_present l d s hs).2 hp)
    · exact ih _ lab l s htail hwc hs

/-- The two concrete series for the only-ports-1-and-2 part of C7. -/
def seriesPort4 : RawSeries := ⟨[("port", .str "4")], [⟨.str "u4", .num 4⟩]⟩

def seriesPort5 : RawSeries := ⟨[("port", .str "5")], [⟨.str "u5", .num 5⟩]⟩

/-- C7: in every snapshot the P1 channel and the legacy 10cm channel hold
the same value (both absent, or both present with the identical reading
sequence), likewise P2 and the legacy 20cm channel; a moisture series
resolving to port 1 (resp. 2) makes its pair present; and ports 4 and 5
get no legacy alias. -/
theorem moisture_legacy_aliasing :
    (∀ payload : List (String × List RawSeries),
      dictGet (fetch_fresh_data payload) chanP1 =
        dictGet (fetch_fresh_data payload) legacy10 ∧
      dictGet (fetch_fresh_data payload) chanP2 =
        dictGet (fetch_fresh_data payload) legacy20) ∧
    (∀ (payload : List (String × List RawSeries)) (lab : String)
        (l : List RawSeries) (s : RawSeries),
      (lab, l) ∈ payload → isWaterContentLabel lab = true → s ∈ l →
      ((series_port s = some 1 →
        (dictGet (fetch_fresh_data payload) chanP1).isSome = true) ∧
       (series_port s = some 2 →
        (dictGet (fetch_fresh_data payload) chanP2).isSome = true))) ∧
    (fetch_fresh_data [("Water Content", [seriesPort4])] =
        [(chanP4, reading_list seriesPort4)] ∧
      dictGet (fetch_fresh_data [("Water Content", [seriesPort4])]) legacy10 = none ∧
      fetch_fresh_data [("Water Content", [seriesPort5])] =
        [(chanP5, reading_list seriesPort5)] ∧
      dictGet (fetch_fresh_data [("Water Content", [seriesPort5])]) legacy20 = none) := by
  refine ⟨legacyInv_fetch, ?_, rfl, rfl, rfl, rfl⟩
  intro payload lab l s hmem hwc hs
  exact fetch_wc_present payload [] lab l s hmem hwc hs

/-- Witness for C7: a single port-1 moisture series makes both the P1
channel and (through the pairing invariant) the legacy channel present. -/
theorem moisture_legacy_aliasing_witness :
    (dictGet (fetch_fresh_data
        [("Water Content", [⟨[("port", .str "1")], [⟨.str "u1", .num 1⟩]⟩])])
      chanP1).isSome = true :=
  (moisture_legacy_aliasing.2.1
    [("Water Content", [⟨[("port", .str "1")], [⟨.str "u1", .num 1⟩]⟩])]
    "Water Content" [⟨[("port", .str "1")], [⟨.str "u1", .num 1⟩]⟩]
    ⟨[("port", .str "1")], [⟨.str "u1", .num 1⟩]⟩
    (List.Mem.head _) rfl (List.Mem.head _)).1 rfl

-- ---------------------------------------------------------------------
-- C1: the zero-loss invariant
-- ---------------------------------------------------------------------

/-- The payload of the C1 counterexample: two moisture series that both
resolve to port 1, so the second assignment overwrites the first. -/
def cexTwoPortOne : List (String × List RawSeries) :=
  [("Water Content",
    [⟨[("port", .str "1")], [⟨.str "ca", .num 1⟩]⟩,
     ⟨[("port", .str "1")], [⟨.str "cb", .num 2⟩]⟩])]

/-- C1 counterexample: with two series resolving to the same port the
input has 2 readings but the output (excluding legacy aliases) keeps only
1 — the first series' reading is lost to the dict overwrite. -/
theorem fetch_zero_loss_fails_on_port_collision :
    totalIn cexTwoPortOne = 2 ∧
    totalOut (fetch_fresh_data cexTwoPortOne) = 1 ∧
    totalOut (fetch_fresh_data cexTwoPortOne) ≠ totalIn cexTwoPortOne :=
  ⟨rfl, rfl, by decide⟩

@[simp]
theorem reading_list_length (s : RawSeries) :
    (reading_list s).length = s.readings.length := by
  simp [reading_list]

@[simp]
theorem totalOut_nil : totalOut [] = 0 := rfl

@[simp]
theorem totalOut_cons (kv : String × List Reading) (d : Snapshot) :
    totalOut (kv :: d) =
      (if kv.1 ∈ legacyNames then 0 else kv.2.length) + totalOut d := by
  simp [totalOut]

@[simp]
theorem totalIn_nil : totalIn [] = 0 := rfl

@[simp]
theorem totalIn_cons (x : String × List RawSeries)
    (p : List (String × List RawSeries)) :
    totalIn (x :: p) = (x.2.map fun s => s.readings.length).sum + totalIn p := by
  simp [totalIn]

theorem totalOut_dictSet_fresh (d : Snapshot) (k : String) (v : List Reading)
    (h : dictGet d k = none) :
    totalOut (dictSet d k v) =
      totalOut d + (if k ∈ legacyNames then 0 else v.length) := by
  induction d with
  | nil => simp [dictSet]
  | cons kv rest ih =>
    by_cases hk : kv.1 = k
    · rw [show dictGet (kv :: rest) k = some kv.2 by simp [dictGet, hk]] at h
      cases h
    · obtain ⟨k₀, v₀⟩ := kv
      rw [show dictGet ((k₀, v₀) :: rest) k = dictGet rest k by simp [dictGet, hk]] at h
      rw [show dictSet ((k₀, v₀) :: rest) k v = (k₀, v₀) :: dictSet rest k v by
        simp [dictSet, hk]]
      rw [totalOut_cons, totalOut_cons, ih h]
      omega

theorem totalOut_sdExtend (d : Snapshot) (k : String) (v : List Reading) :
    totalOut (dictSetdefaultExtend d k v) =
      totalOut d + (if k ∈ legacyNames then 0 else v.length) := by
  induction d with
  | nil => simp [dictSetdefaultExtend]
  | cons kv rest ih =>
    obtain ⟨k₀, v₀⟩ := kv
    by_cases hk : k₀ = k
    · subst hk
      rw [show dictSetdefaultExtend ((k₀, v₀) :: rest) k₀ v = (k₀, v₀ ++ v) :: rest by
        simp [dictSetdefaultExtend]]
      rw [totalOut_cons, totalOut_cons]
      by_cases hl : k₀ ∈ legacyNames
      · simp [hl]
      · simp [hl]
        omega
    · rw [show dictSetdefaultExtend ((k₀, v₀) :: rest) k v =
          (k₀, v₀) :: dictSetdefaultExtend rest k v by simp [dictSetdefaultExtend, hk]]
      rw [totalOut_cons, totalOut_cons, ih]
      omega

theorem concat_reading_lists_length (l : List RawSeries) :
    ∀ acc : List Reading,
      (l.foldl (fun acc s => acc ++ reading_list s) acc).length =
        acc.length + (l.map fun s => s.readings.length).sum := by
  induction l with
  | nil => intro acc; simp
  | cons s rest ih =>
    intro acc
    rw [List.foldl_cons, ih]
    simp
    omega

theorem wcChansOf_range (l : List RawSeries) :
    ∀ c ∈ wcChansOf l, c = chanP1 ∨ c = chanP2 ∨ c = chanP4 ∨ c = chanP5 := by
  intro c hc
  obtain ⟨s, _, hbind⟩ := List.mem_filterMap.mp hc
  cases hp : series_port s with
  | none => rw [hp] at hbind; cases hbind
  | some p =>
    rw [hp, Option.some_bind] at hbind
    unfold portChanWC at hbind
    split_ifs at hbind <;> simp_all

theorem mpChansOf_range (l : List RawSeries) :
    ∀ c ∈ mpChansOf l, c = chanP3 ∨ c = chanP6 := by
  intro c hc
  obtain ⟨s, _, hbind⟩ := List.mem_filterMap.mp hc
  cases hp : series_port s with
  | none => rw [hp] at hbind; cases hbind
  | some p =>
    rw [hp, Option.some_bind] at hbind
    unfold portChanMP at hbind
    split_ifs at hbind <;> simp_all

@[simp]
theorem allChans_nil : allChans [] = [] := rfl

@[simp]
theorem allChans_cons (x : String × List RawSeries)
    (p : List (String × List RawSeries)) :
    allChans (x :: p) = chansOfLabel x ++ allChans p := by
  simp [allChans]

theorem allChans_mem_class (p : List (String × List RawSeries)) :
    ∀ c ∈ allChans p,
      (c = chanP1 ∨ c = chanP2 ∨ c = chanP4 ∨ c = chanP5 ∨ c = chanP3 ∨ c = chanP6) ∨
      (isWaterContentLabel c = false ∧ isMatricPotentialLabel c = false) := by
  intro c hc
  obtain ⟨lc, hlc, hcin⟩ := List.mem_flatten.mp hc
  obtain ⟨x, _, rfl⟩ := List.mem_map.mp hlc
  unfold chansOfLabel at hcin
  split_ifs at hcin with hwc hmp
  · rcases wcChansOf_range x.2 c hcin with h | h | h | h <;> simp [h]
  · rcases mpChansOf_range x.2 c hcin with h | h <;> simp [h]
  · right
    rcases List.mem_singleton.mp hcin with rfl
    exact ⟨Bool.eq_false_iff.mpr hwc, Bool.eq_false_iff.mpr hmp⟩

theorem allChans_not_special (p : List (String × List RawSeries)) :
    ∀ c ∈ allChans p,
      c ≠ legacy10 ∧ c ≠ legacy20 ∧ c ≠ "Water Content" ∧ c ≠ "Matric Potential" := by
  intro c hc
  rcases allChans_mem_class p c hc with h6 | ⟨hwc, hmp⟩
  · rcases h6 with rfl | rfl | rfl | rfl | rfl | rfl <;>
      exact ⟨by decide, by decide, by decide, by decide⟩
  · refine ⟨?_, ?_, ?_, ?_⟩ <;> rintro rfl
    · exact absurd hwc (by decide)
    · exact absurd hwc (by decide)
    · exact absurd hwc (by decide)
    · exact absurd hmp (by decide)

/-- Dispatch of one water-content series: either it resolves onto a port
channel (with the exact snapshot writes of `wcAssign`), or it falls back
to extending `"Water Content"`. -/
theorem wcAssign_cases (d : Snapshot) (s : RawSeries) :
    ((series_port s).bind portChanWC = some chanP1 ∧
      wcAssign d s =
        dictSet (dictSet d chanP1 (reading_list s)) legacy10 (reading_list s)) ∨
    ((series_port s).bind portChanWC = some chanP2 ∧
      wcAssign d s =
        dictSet (dictSet d chanP2 (reading_list s)) legacy20 (reading_list s)) ∨
    ((series_port s).bind portChanWC = some chanP4 ∧
      wcAssign d s = dictSet d chanP4 (reading_list s)) ∨
    ((series_port s).bind portChanWC = some chanP5 ∧
      wcAssign d s = dictSet d chanP5 (reading_list s)) ∨
    ((series_port s).bind portChanWC = none ∧
      wcAssign d s = dictSetdefaultExtend d "Water Content" (reading_list s)) := by
  unfold wcAssign
  dsimp only
  cases hp : series_port s with
  | none => simp [portChanWC]
  | some p =>
    rw [Option.some_bind]
    by_cases h1 : p = 1
    · subst h1; left; exact ⟨rfl, by simp⟩
    · by_cases h2 : p = 2
      · subst h2; right; left; exact ⟨rfl, by simp⟩
      · by_cases h4 : p = 4
        · subst h4; right; right; left; exact ⟨by simp [portChanWC], by simp [h1, h2]⟩
        · by_cases h5 : p = 5
          · subst h5
            right; right; right; left
            exact ⟨by simp [portChanWC], by simp [h1, h2, h4]⟩
          · right; right; right; right
            refine ⟨by simp [portChanWC, h1, h2, h4, h5], by simp [h1, h2, h4, h5]⟩

/-- Dispatch of one matric-potential series. -/
theorem mpAssign_cases (d : Snapshot) (s : RawSeries) :
    ((series_port s).bind portChanMP = some chanP3 ∧
      mpAssign d s = dictSet d chanP3 (reading_list s)) ∨
    ((series_port s).bind portChanMP = some chanP6 ∧
      mpAssign d s = dictSet d chanP6 (reading_list s)) ∨
    ((series_port s).bind portChanMP = none ∧
      mpAssign d s = dictSetdefaultExtend d "Matric Potential" (reading_list s)) := by
  unfold mpAssign
  dsimp only
  cases hp : series_port s with
  | none => simp [portChanMP]
  | some p =>
    rw [Option.some_bind]
    by_cases h3 : p = 3
    · subst h3; left; exact ⟨rfl, by simp⟩
    · by_cases h6 : p = 6
      · subst h6; right; left; exact ⟨by simp [portChanMP], by simp [h3]⟩
      · right; right
        exact ⟨by simp [portChanMP, h3, h6], by simp [h3, h6]⟩

@[simp]
theorem wcChansOf_cons (s : RawSeries) (l : List RawSeries) :
    wcChansOf (s :: l) =
      match (series_port s).bind portChanWC with
      | some c => c :: wcChansOf l
      | none => wcChansOf l := by
  simp [wcChansOf, List.filterMap_cons]
  cases (series_port s).bind portChanWC <;> simp

@[simp]
theorem mpChansOf_cons (s : RawSeries) (l : List RawSeries) :
    mpChansOf (s :: l) =
      match (series_port s).bind portChanMP with
      | some c => c :: mpChansOf l
      | none => mpChansOf l := by
  simp [mpChansOf, List.filterMap_cons]
  cases (series_port s).bind portChanMP <;> simp

/-- Every key present after folding the series of one moisture label is
either an old key, an assigned port channel of the label, a legacy alias
paired with its port channel, or the shared fallback channel. -/
theorem wcFold_keys (l : List RawSeries) :
    ∀ (d : Snapshot) (k : String), (dictGet (l.foldl wcAssign d) k).isSome = true →
      (dictGet d k).isSome = true ∨ k ∈ wcChansOf l ∨
      (k = legacy10 ∧ chanP1 ∈ wcChansOf l) ∨
      (k = legacy20 ∧ chanP2 ∈ wcChansOf l) ∨ k = "Water Content" := by
  induction l with
  | nil => exact fun d k hk => Or.inl hk
  | cons s rest ih =>
    intro d k hk
    rw [List.foldl_cons] at hk
    rcases wcAssign_cases d s with ⟨hb, he⟩ | ⟨hb, he⟩ | ⟨hb, he⟩ | ⟨hb, he⟩ | ⟨hb, he⟩ <;>
      rw [he] at hk <;> simp only [wcChansOf_cons, hb] <;>
      rcases ih _ k hk with h | h | ⟨rfl, hmem⟩ | ⟨rfl, hmem⟩ | rfl
    -- port 1: writes chanP1 and legacy10
    · rw [dictGet_dictSet, dictGet_dictSet] at h
      split_ifs at h with e1 e2
      · exact Or.inr (Or.inr (Or.inl ⟨e1.symm, List.mem_cons_self _ _⟩))
      · exact Or.inr (Or.inl (e2 ▸ List.mem_cons_self _ _))
      · exact Or.inl h
    · exact Or.inr (Or.inl (List.mem_cons_of_mem _ h))
    · exact Or.inr (Or.inr (Or.inl ⟨rfl, List.mem_cons_of_mem _ hmem⟩))
    · exact Or.inr (Or.inr (Or.inr (Or.inl ⟨rfl, List.mem_cons_of_mem _ hmem⟩)))
    · exact Or.inr (Or.inr (Or.inr (Or.inr rfl)))
    -- port 2: writes chanP2 and legacy20
    · rw [dictGet_dictSet, dictGet_dictSet] at h
      split_ifs at h with e1 e2
      · exact Or.inr (Or.inr (Or.inr (Or.inl ⟨e1.symm, List.mem_cons_self _ _⟩)))
      · exact Or.inr (Or.inl (e2 ▸ List.mem_cons_self _ _))
      · exact Or.inl h
    · exact Or.inr (Or.inl (List.mem_cons_of_mem _ h))
    · exact Or.inr (Or.inr (Or.inl ⟨rfl, List.mem_cons_of_mem _ hmem⟩))
    · exact Or.inr (Or.inr (Or.inr (Or.inl ⟨rfl, List.mem_cons_of_mem _ hmem⟩)))
    · exact Or.inr (Or.inr (Or.inr (Or.inr rfl)))
    -- port 4
    · rw [dictGet_dictSet] at h
      split_ifs at h with e1
      · exact Or.inr (Or.inl (e1 ▸ List.mem_cons_self _ _))
      · exact Or.inl h
    · exact Or.inr (Or.inl (List.mem_cons_of_mem _ h))
    · exact Or.inr (Or.inr (Or.inl ⟨rfl, List.mem_cons_of_mem _ hmem⟩))
    · exact Or.inr (Or.inr (Or.inr (Or.inl ⟨rfl, List.mem_cons_of_mem _ hmem⟩)))
    · exact Or.inr (Or.inr (Or.inr (Or.inr rfl)))
    -- port 5
    · rw [dictGet_dictSet] at h
      split_ifs at h with e1
      · exact Or.inr (Or.inl (e1 ▸ List.mem_cons_self _ _))
      · exact Or.inl h
    · exact Or.inr (Or.inl (List.mem_cons_of_mem _ h))
    · exact Or.inr (Or.inr (Or.inl ⟨rfl, List.mem_cons_of_mem _ hmem⟩))
    · exact Or.inr (Or.inr (Or.inr (Or.inl ⟨rfl, List.mem_cons_of_mem _ hmem⟩)))
    · exact Or.inr (Or.inr (Or.inr (Or.inr rfl)))
    -- fallback
    · rw [dictGet_sdExtend] at h
      split_ifs at h with e1
      · exact Or.inr (Or.inr (Or.inr (Or.inr e1.symm)))
      · exact Or.inl h
    · exact Or.inr (Or.inl h)
    · exact Or.inr (Or.inr (Or.inl ⟨rfl, hmem⟩))
    · exact Or.inr (Or.inr (Or.inr (Or.inl ⟨rfl, hmem⟩)))
    · exact Or.inr (Or.inr (Or.inr (Or.inr rfl)))

/-- Same key tracking for one matric-potential label. -/
theorem mpFold_keys (l : List RawSeries) :
    ∀ (d : Snapshot) (k : String), (dictGet (l.foldl mpAssign d) k).isSome = true →
      (dictGet d k).isSome = true ∨ k ∈ mpChansOf l ∨ k = "Matric Potential" := by
  induction l with
  | nil => exact fun d k hk => Or.inl hk
  | cons s rest ih =>
    intro d k hk
    rw [List.foldl_cons] at hk
    rcases mpAssign_cases d s with ⟨hb, he⟩ | ⟨hb, he⟩ | ⟨hb, he⟩ <;>
      rw [he] at hk <;> simp only [mpChansOf_cons, hb] <;>
      rcases ih _ k hk with h | h | rfl
    · rw [dictGet_dictSet] at h
      split_ifs at h with e1
      · exact Or.inr (Or.inl (e1 ▸ List.mem_cons_self _ _))
      · exact Or.inl h
    · exact Or.inr (Or.inl (List.mem_cons_of_mem _ h))
    · exact Or.inr (Or.inr rfl)
    · rw [dictGet_dictSet] at h
      split_ifs at h with e1
      · exact Or.inr (Or.inl (e1 ▸ List.mem_cons_self _ _))
      · exact Or.inl h
    · exact Or.inr (Or.inl (List.mem_cons_of_mem _ h))
    · exact Or.inr (Or.inr rfl)
    · rw [dictGet_sdExtend] at h
      split_ifs at h with e1
      · exact Or.inr (Or.inr e1.symm)
      · exact Or.inl h
    · exact Or.inr (Or.inl h)
    · exact Or.inr (Or.inr rfl)

/-- Reading-count bookkeeping for one moisture label: when the assigned
port channels are pairwise distinct and fresh (and the legacy aliases of
assigned P1/P2 channels are fresh), the fold adds exactly the label's
reading count to the non-legacy total. -/
theorem wcFold_sum (l : List RawSeries) :
    ∀ d : Snapshot,
      (wcChansOf l).Nodup →
      (∀ c ∈ wcChansOf l, dictGet d c = none) →
      (chanP1 ∈ wcChansOf l → dictGet d legacy10 = none) →
      (chanP2 ∈ wcChansOf l → dictGet d legacy20 = none) →
      totalOut (l.foldl wcAssign d) =
        totalOut d + (l.map fun s => s.readings.length).sum := by
  induction l with
  | nil => intro d _ _ _ _; simp
  | cons s rest ih =>
    intro d hnd hfresh hleg1 hleg2
    rw [List.foldl_cons]
    rcases wcAssign_cases d s with ⟨hb, he⟩ | ⟨hb, he⟩ | ⟨hb, he⟩ | ⟨hb, he⟩ | ⟨hb, he⟩ <;>
      rw [he] <;> simp only [wcChansOf_cons, hb] at hnd hfresh hleg1 hleg2
    · -- port 1: chanP1 and legacy10
      have hnotin : chanP1 ∉ wcChansOf rest := (List.nodup_cons.mp hnd).1
      have hndr : (wcChansOf rest).Nodup := (List.nodup_cons.mp hnd).2
      have hfc : dictGet d chanP1 = none := hfresh chanP1 (List.mem_cons_self _ _)
      have hfl : dictGet d legacy10 = none := hleg1 (List.mem_cons_self _ _)
      have e1 : totalOut (dictSet (dictSet d chanP1 (reading_list s)) legacy10
            (reading_list s)) = totalOut d + (reading_list s).length := by
        rw [totalOut_dictSet_fresh _ _ _
              (by rw [dictGet_dictSet, if_neg (by decide : ¬chanP1 = legacy10)]
                  exact hfl),
            totalOut_dictSet_fresh _ _ _ hfc]
        simp [legacyNames, legacy10, legacy20, chanP1]
      have hfr : ∀ c ∈ wcChansOf rest,
          dictGet (dictSet (dictSet d chanP1 (reading_list s)) legacy10
            (reading_list s)) c = none := by
        intro c hc
        rw [dictGet_dictSet,
          if_neg (by rcases wcChansOf_range rest c hc with rfl | rfl | rfl | rfl <;> decide),
          dictGet_dictSet, if_neg (fun e : chanP1 = c => hnotin (e ▸ hc))]
        exact hfresh c (List.mem_cons_of_mem _ hc)
      have hl1 : chanP1 ∈ wcChansOf rest →
          dictGet (dictSet (dictSet d chanP1 (reading_list s)) legacy10
            (reading_list s)) legacy10 = none :=
        fun hmem => absurd hmem hnotin
      have hl2 : chanP2 ∈ wcChansOf rest →
          dictGet (dictSet (dictSet d chanP1 (reading_list s)) legacy10
            (reading_list s)) legacy20 = none := by
        intro hmem
        rw [dictGet_dictSet, if_neg (by decide : ¬legacy10 = legacy20),
          dictGet_dictSet, if_neg (by decide : ¬chanP1 = legacy20)]
        exact hleg2 (List.mem_cons_of_mem _ hmem)
      rw [ih _ hndr hfr hl1 hl2, e1]
      simp
      omega
    · -- port 2: chanP2 and legacy20
      have hnotin : chanP2 ∉ wcChansOf rest := (List.nodup_cons.mp hnd).1
      have hndr : (wcChansOf rest).Nodup := (List.nodup_cons.mp hnd).2
      have hfc : dictGet d chanP2 = none := hfresh chanP2 (List.mem_cons_self _ _)
      have hfl : dictGet d legacy20 = none := hleg2 (List.mem_cons_self _ _)
      have e1 : totalOut (dictSet (dictSet d chanP2 (reading_list s)) legacy20
            (reading_list s)) = totalOut d + (reading_list s).length := by
        rw [totalOut_dictSet_fresh _ _ _
              (by rw [dictGet_dictSet, if_neg (by decide : ¬chanP2 = legacy20)]
                  exact hfl),
            totalOut_dictSet_fresh _ _ _ hfc]
        simp [legacyNames, legacy10, legacy20, chanP2]
      have hfr : ∀ c ∈ wcChansOf rest,
          dictGet (dictSet (dictSet d chanP2 (reading_list s)) legacy20
            (reading_list s)) c = none := by
        intro c hc
        rw [dictGet_dictSet,
          if_neg (by rcases wcChansOf_range rest c hc with rfl | rfl | rfl | rfl <;> decide),
          dictGet_dictSet, if_neg (fun e : chanP2 = c => hnotin (e ▸ hc))]
        exact hfresh c (List.mem_cons_of_mem _ hc)
      have hl1 : chanP1 ∈ wcChansOf rest →
          dictGet (dictSet (dictSet d chanP2 (reading_list s)) legacy20
            (reading_list s)) legacy10 = none := by
        intro hmem
        rw [dictGet_dictSet, if_neg (by decide : ¬legacy20 = legacy10),
          dictGet_dictSet, if_neg (by decide : ¬chanP2 = legacy10)]
        exact hleg1 (List.mem_cons_of_mem _ hmem)
      have hl2 : chanP2 ∈ wcChansOf rest →
          dictGet (dictSet (dictSet d chanP2 (reading_list s)) legacy20
            (reading_list s)) legacy20 = none :=
        fun hmem => absurd hmem hnotin
      rw [ih _ hndr hfr hl1 hl2, e1]
      simp
      omega
    · -- port 4: single channel write
      have hnotin : chanP4 ∉ wcChansOf rest := (List.nodup_cons.mp hnd).1
      have hndr : (wcChansOf rest).Nodup := (List.nodup_cons.mp hnd).2
      have hfc : dictGet d chanP4 = none := hfresh chanP4 (List.mem_cons_self _ _)
      have e1 : totalOut (dictSet d chanP4 (reading_list s)) =
          totalOut d + (reading_list s).length := by
        rw [totalOut_dictSet_fresh _ _ _ hfc]
        simp [legacyNames, legacy10, legacy20, chanP4]
      have hfr : ∀ c ∈ wcChansOf rest,
          dictGet (dictSet d chanP4 (reading_list s)) c = none := by
        intro c hc
        rw [dictGet_dictSet, if_neg (fun e : chanP4 = c => hnotin (e ▸ hc))]
        exact hfresh c (List.mem_cons_of_mem _ hc)
      have hl1 : chanP1 ∈ wcChansOf rest →
          dictGet (dictSet d chanP4 (reading_list s)) legacy10 = none := by
        intro hmem
        rw [dictGet_dictSet, if_neg (by decide : ¬chanP4 = legacy10)]
        exact hleg1 (List.mem_cons_of_mem _ hmem)
      have hl2 : chanP2 ∈ wcChansOf rest →
          dictGet (dictSet d chanP4 (reading_list s)) legacy20 = none := by
        intro hmem
        rw [dictGet_dictSet, if_neg (by decide : ¬chanP4 = legacy20)]
        exact hleg2 (List.mem_cons_of_mem _ hmem)
      rw [ih _ hndr hfr hl1 hl2, e1]
      simp
      omega
    · -- port 5: single channel write
      have hnotin : chanP5 ∉ wcChansOf rest := (List.nodup_cons.mp hnd).1
      have hndr : (wcChansOf rest).Nodup := (List.nodup_cons.mp hnd).2
      have hfc : dictGet d chanP5 = none := hfresh chanP5 (List.mem_cons_self _ _)
      have e1 : totalOut (dictSet d chanP5 (reading_list s)) =
          totalOut d + (reading_list s).length := by
        rw [totalOut_dictSet_fresh _ _ _ hfc]
        simp [legacyNames, legacy10, legacy20, chanP5]
      have hfr : ∀ c ∈ wcChansOf rest,
          dictGet (dictSet d chanP5 (reading_list s)) c = none := by
        intro c hc
        rw [dictGet_dictSet, if_neg (fun e : chanP5 = c => hnotin (e ▸ hc))]
        exact hfresh c (List.mem_cons_of_mem _ hc)
      have hl1 : chanP1 ∈ wcChansOf rest →
          dictGet (dictSet d chanP5 (reading_list s)) legacy10 = none := by
        intro hmem
        rw [dictGet_dictSet, if_neg (by decide : ¬chanP5 = legacy10)]
        exact hleg1 (List.mem_cons_of_mem _ hmem)
      have hl2 : chanP2 ∈ wcChansOf rest →
          dictGet (dictSet d chanP5 (reading_list s)) legacy20 = none := by
        intro hmem
        rw [dictGet_dictSet, if_neg (by decide : ¬chanP5 = legacy20)]
        exact hleg2 (List.mem_cons_of_mem _ hmem)
      rw [ih _ hndr hfr hl1 hl2, e1]
      simp
      omega
    · -- unknown port: extend-only fallback, no loss and no fresh keys needed
      have e1 : totalOut (dictSetdefaultExtend d "Water Content" (reading_list s)) =
          totalOut d + (reading_list s).length := by
        rw [totalOut_sdExtend]
        simp [legacyNames, legacy10, legacy20]
      have hfr : ∀ c ∈ wcChansOf rest,
          dictGet (dictSetdefaultExtend d "Water Content" (reading_list s)) c = none := by
        intro c hc
        rw [dictGet_sdExtend,
          if_neg (by rcases wcChansOf_range rest c hc with rfl | rfl | rfl | rfl <;> decide)]
        exact hfresh c hc
      have hl1 : chanP1 ∈ wcChansOf rest →
          dictGet (dictSetdefaultExtend d "Water Content" (reading_list s))
            legacy10 = none := by
        intro hmem
        rw [dictGet_sdExtend, if_neg (by decide : ¬"Water Content" = legacy10)]
        exact hleg1 hmem
      have hl2 : chanP2 ∈ wcChansOf rest →
          dictGet (dictSetdefaultExtend d "Water Content" (reading_list s))
            legacy20 = none := by
        intro hmem
        rw [dictGet_sdExtend, if_neg (by decide : ¬"Water Content" = legacy20)]
        exact hleg2 hmem
      rw [ih _ hnd hfr hl1 hl2, e1]
      simp
      omega

/-- Reading-count bookkeeping for one matric-potential label. -/
theorem mpFold_sum (l : List RawSeries) :
    ∀ d : Snapshot,
      (mpChansOf l).Nodup →
      (∀ c ∈ mpChansOf l, dictGet d c = none) →
      totalOut (l.foldl mpAssign d) =
        totalOut d + (l.map fun s => s.readings.length).sum := by
  induction l with
  | nil => intro d _ _; simp
  | cons s rest ih =>
    intro d hnd hfresh
    rw [List.foldl_cons]
    rcases mpAssign_cases d s with ⟨hb, he⟩ | ⟨hb, he⟩ | ⟨hb, he⟩ <;>
      rw [he] <;> simp only [mpChansOf_cons, hb] at hnd hfresh
    · have hnotin : chanP3 ∉ mpChansOf rest := (List.nodup_cons.mp hnd).1
      have hndr : (mpChansOf rest).Nodup := (List.nodup_cons.mp hnd).2
      have hfc : dictGet d chanP3 = none := hfresh chanP3 (List.mem_cons_self _ _)
      have e1 : totalOut (dictSet d chanP3 (reading_list s)) =
          totalOut d + (reading_list s).length := by
        rw [totalOut_dictSet_fresh _ _ _ hfc]
        simp [legacyNames, legacy10, legacy20, chanP3]
      have hfr : ∀ c ∈ mpChansOf rest,
          dictGet (dictSet d chanP3 (reading_list s)) c = none := by
        intro c hc
        rw [dictGet_dictSet, if_neg (fun e : chanP3 = c => hnotin (e ▸ hc))]
        exact hfresh c (List.mem_cons_of_mem _ hc)
      rw [ih _ hndr hfr, e1]
      simp
      omega
    · have hnotin : chanP6 ∉ mpChansOf rest := (List.nodup_cons.mp hnd).1
      have hndr : (mpChansOf rest).Nodup := (List.nodup_cons.mp hnd).2
      have hfc : dictGet d chanP6 = none := hfresh chanP6 (List.mem_cons_self _ _)
      have e1 : totalOut (dictSet d chanP6 (reading_list s)) =
          totalOut d + (reading_list s).length := by
        rw [totalOut_dictSet_fresh _ _ _ hfc]
        simp [legacyNames, legacy10, legacy20, chanP6]
      have hfr : ∀ c ∈ mpChansOf rest,
          dictGet (dictSet d chanP6 (reading_list s)) c = none := by
        intro c hc
        rw [dictGet_dictSet, if_neg (fun e : chanP6 = c => hnotin (e ▸ hc))]
        exact hfresh c (List.mem_cons_of_mem _ hc)
      rw [ih _ hndr hfr, e1]
      simp
      omega
    · have e1 : totalOut (dictSetdefaultExtend d "Matric Potential" (reading_list s)) =
          totalOut d + (reading_list s).length := by
        rw [totalOut_sdExtend]
        simp [legacyNames, legacy10, legacy20]
      have hfr : ∀ c ∈ mpChansOf rest,
          dictGet (dictSetdefaultExtend d "Matric Potential" (reading_list s)) c = none := by
        intro c hc
        rw [dictGet_sdExtend,
          if_neg (by rcases mpChansOf_range rest c hc with rfl | rfl <;> decide)]
        exact hfresh c hc
      rw [ih _ hnd hfr, e1]
      simp
      omega

/-- Key tracking for one payload entry. -/
theorem labelStep_keys (d : Snapshot) (x : String × List RawSeries) (k : String)
    (hk : (dictGet (labelStep d x) k).isSome = true) :
    (dictGet d k).isSome = true ∨ k ∈ chansOfLabel x ∨
    (k = legacy10 ∧ chanP1 ∈ chansOfLabel x) ∨
    (k = legacy20 ∧ chanP2 ∈ chansOfLabel x) ∨
    k = "Water Content" ∨ k = "Matric Potential" := by
  unfold labelStep at hk
  unfold chansOfLabel
  split_ifs at * with hwc hmp
  · rcases wcFold_keys x.2 d k hk with h | h | ⟨rfl, h⟩ | ⟨rfl, h⟩ | rfl
    · exact Or.inl h
    · exact Or.inr (Or.inl h)
    · exact Or.inr (Or.inr (Or.inl ⟨rfl, h⟩))
    · exact Or.inr (Or.inr (Or.inr (Or.inl ⟨rfl, h⟩)))
    · exact Or.inr (Or.inr (Or.inr (Or.inr (Or.inl rfl))))
  · rcases mpFold_keys x.2 d k hk with h | h | rfl
    · exact Or.inl h
    · exact Or.inr (Or.inl h)
    · exact Or.inr (Or.inr (Or.inr (Or.inr (Or.inr rfl))))
  · rw [dictGet_dictSet] at hk
    split_ifs at hk with e
    · exact Or.inr (Or.inl (by simp [e]))
    · exact Or.inl hk

/-- The main bookkeeping induction over the whole payload. -/
theorem labelFold_sum (p : List (String × List RawSeries)) :
    ∀ d : Snapshot,
      (allChans p).Nodup →
      (∀ c ∈ allChans p, dictGet d c = none) →
      (chanP1 ∈ allChans p → dictGet d legacy10 = none) →
      (chanP2 ∈ allChans p → dictGet d legacy20 = none) →
      totalOut (p.foldl labelStep d) = totalOut d + totalIn p := by
  induction p with
  | nil => intro d _ _ _ _; simp
  | cons x rest ih =>
    intro d hnd hfresh hleg1 hleg2
    rw [List.foldl_cons, totalIn_cons]
    rw [allChans_cons] at hnd
    obtain ⟨hndx, hndr, hdisj⟩ := List.nodup_append.mp hnd
    have hfreshx : ∀ c ∈ chansOfLabel x, dictGet d c = none := fun c hc =>
      hfresh c (by rw [allChans_cons]; exact List.mem_append_left _ hc)
    have hfreshr : ∀ c ∈ allChans rest, dictGet d c = none := fun c hc =>
      hfresh c (by rw [allChans_cons]; exact List.mem_append_right _ hc)
    have e1 : totalOut (labelStep d x) =
        totalOut d + (x.2.map fun s => s.readings.length).sum := by
      unfold labelStep
      split_ifs with hwc hmp
      · refine wcFold_sum x.2 d ?_ ?_ ?_ ?_
        · rw [show wcChansOf x.2 = chansOfLabel x by simp [chansOfLabel, hwc]]
          exact hndx
        · intro c hc
          exact hfreshx c (by simp [chansOfLabel, hwc, hc])
        · intro hc
          exact hleg1 (by rw [allChans_cons]
                          exact List.mem_append_left _ (by simp [chansOfLabel, hwc, hc]))
        · intro hc
          exact hleg2 (by rw [allChans_cons]
                          exact List.mem_append_left _ (by simp [chansOfLabel, hwc, hc]))
      · refine mpFold_sum x.2 d ?_ ?_
        · rw [show mpChansOf x.2 = chansOfLabel x by simp [chansOfLabel, hwc, hmp]]
          exact hndx
        · intro c hc
          exact hfreshx c (by simp [chansOfLabel, hwc, hmp, hc])
      · have hx1 : x.1 ∈ chansOfLabel x := by simp [chansOfLabel, hwc, hmp]
        have hf : dictGet d x.1 = none := hfreshx x.1 hx1
        obtain ⟨hne1, hne2, _, _⟩ :=
          allChans_not_special [x] x.1 (by simp [allChans_cons, hx1])
        rw [totalOut_dictSet_fresh _ _ _ hf,
          if_neg (by simp [legacyNames, hne1, hne2]),
          concat_reading_lists_length]
        simp
    have hkeys : ∀ k, (dictGet (labelStep d x) k).isSome = true →
        (dictGet d k).isSome = true ∨ k ∈ chansOfLabel x ∨
        (k = legacy10 ∧ chanP1 ∈ chansOfLabel x) ∨
        (k = legacy20 ∧ chanP2 ∈ chansOfLabel x) ∨
        k = "Water Content" ∨ k = "Matric Potential" :=
      fun k => labelStep_keys d x k
    have hfresh' : ∀ c ∈ allChans rest, dictGet (labelStep d x) c = none := by
      intro c hc
      by_contra hne
      obtain ⟨hns1, hns2, hns3, hns4⟩ := allChans_not_special rest c hc
      rcases hkeys c (Option.ne_none_iff_isSome.mp hne) with
        h | h | ⟨rfl, _⟩ | ⟨rfl, _⟩ | rfl | rfl
      · rw [hfreshr c hc] at h
        cases h
      · exact hdisj h hc
      · exact hns1 rfl
      · exact hns2 rfl
      · exact hns3 rfl
      · exact hns4 rfl
    have hleg1' : chanP1 ∈ allChans rest → dictGet (labelStep d x) legacy10 = none := by
      intro hc
      by_contra hne
      rcases hkeys legacy10 (Option.ne_none_iff_isSome.mp hne) with
        h | h | ⟨_, hmem⟩ | ⟨habs, _⟩ | habs | habs
      · rw [hleg1 (by rw [allChans_cons]; exact List.mem_append_right _ hc)] at h
        cases h
      · exact (allChans_not_special [x] legacy10 (by simp [allChans_cons, h])).1 rfl
      · exact hdisj hmem hc
      · exact absurd habs (by decide)
      · exact absurd habs (by decide)
      · exact absurd habs (by decide)
    have hleg2' : chanP2 ∈ allChans rest → dictGet (labelStep d x) legacy20 = none := by
      intro hc
      by_contra hne
      rcases hkeys legacy20 (Option.ne_none_iff_isSome.mp hne) with
        h | h | ⟨habs, _⟩ | ⟨_, hmem⟩ | habs | habs
      · rw [hleg2 (by rw [allChans_cons]; exact List.mem_append_right _ hc)] at h
        cases h
      · exact (allChans_not_special [x] legacy20 (by simp [allChans_cons, h])).2.1 rfl
      · exact absurd habs (by decide)
      · exact hdisj hmem hc
      · exact absurd habs (by decide)
      · exact absurd habs (by decide)
    rw [ih _ hndr hfresh' hleg1' hleg2', e1]
    omega

/-- C1 amended: for every raw payload in which the channels written by
dict assignment (the resolved port channels of moisture/potential labels
and the passthrough labels) are pairwise distinct, the total reading
count across output channels, excluding the two legacy alias channels,
equals the total reading count across all input series — no reading is
dropped.  (When two series resolve to the same channel, the second
assignment overwrites the first and readings ARE lost, per the
counterexample.) -/
theorem fetch_zero_loss_when_channels_distinct
    (payload : List (String × List RawSeries))
    (hnd : (allChans payload).Nodup) :
    totalOut (fetch_fresh_data payload) = totalIn payload := by
  have h := labelFold_sum payload [] hnd (fun c _ => rfl) (fun _ => rfl) (fun _ => rfl)
  simpa using h

/-- The witness payload: one port-1 moisture series and one passthrough
label, with distinct output channels. -/
def wDistinctPayload : List (String × List RawSeries) :=
  [("Water Content", [⟨[("port", .str "1")], [⟨.str "w1", .num 1⟩]⟩]),
   ("Air Temperature", [⟨[], [⟨.str "w1", .num 20⟩, ⟨.str "w2", .num 21⟩]⟩])]

/-- Witness for the amended C1: on the distinct-channel payload the
totals agree (3 readings in, 3 readings out excluding the legacy alias). -/
theorem fetch_zero_loss_when_channels_distinct_witness :
    totalOut (fetch_fresh_data wDistinctPayload) = totalIn wDistinctPayload :=
  fetch_zero_loss_when_channels_distinct wDistinctPayload (by decide)

end SouthFarm
